import Mathlib

/-!
# A verification development for the OEF python SDK

This file gives a shallow embedding, in Lean 4, of the core data model and
operations of the `oef` package (`oef/schema.py`, `oef/query.py`,
`oef/proxy.py`, `oef/dialogue.py`), and proves properties of the embedded
definitions.

Modelling conventions:

* Python runtime values that can appear as attribute values (`float`, `str`,
  `bool`, `int`, plus `Location`, which the query module manipulates) are the
  inductive type `Value`.  Python `float` is modelled by `Rat`: the code uses
  floats only through comparison and equality, and the claims under study do
  not depend on rounding or on NaN behaviour.
* Python's `type(v)` is `Value.ty : Value → Ty`; `isinstance` is
  `isinstanceTy`, which records that `bool` is a subclass of `int`.
* Python comparisons that can raise `TypeError` (ordering of values of
  unrelated types) are functions into `Option Bool`, `none` standing for the
  raised exception; `==` never raises and is the total `Value.pyEq`, which
  compares numeric values (`bool`/`int`/`float`) numerically, as Python does.
* Constructors that validate and raise (`And`, `Or`, `Query`, `Description`)
  are modelled as smart constructors returning `Except`.
* Asynchronous code is modelled by explicit state passing; the local node's
  per-agent mailboxes are association lists of queues.
-/

namespace OEF

/-- The Python runtime types that occur as values in the query/schema layer:
the four `ATTRIBUTE_TYPES` of `oef/schema.py` (`float`, `str`, `bool`, `int`)
plus the `Location` class used by `oef/query.py`. -/
inductive Ty where
  | bool
  | int
  | float
  | str
  | location
deriving DecidableEq, Repr

/-- Modelled from the spec: the `Location` class is referenced by
`src/oef/query.py` (imported from `oef.schema`) but its definition is missing
from `src/oef/schema.py`.  Per the spec it is a latitude/longitude pair
supporting a haversine great-circle distance.  Coordinates are modelled as
rationals; the transcendental haversine distance itself is taken as a
parameter (`hav`) wherever it is needed, so every theorem below holds for the
actual haversine function in particular. -/
structure Location where
  latitude : Rat
  longitude : Rat
deriving DecidableEq, Repr

/-- A Python runtime value of one of the five types of `Ty`.  The constructor
names `s`, `b`, `i`, `d`, `l` follow the tags of the wire format's
`Query.Value` oneof, which carries exactly these five cases. -/
inductive Value where
  | s (v : String)
  | b (v : Bool)
  | i (v : Int)
  | d (v : Rat)
  | l (v : Location)
deriving DecidableEq, Repr

/-- Python's `type(v)` for a runtime value. -/
def Value.ty : Value → Ty
  | .s _ => .str
  | .b _ => .bool
  | .i _ => .int
  | .d _ => .float
  | .l _ => .location

/-- The numeric content of a value, when Python treats it as a number
(`bool` counts as `0`/`1`, as in Python, where `bool` is an `int`
subclass). -/
def Value.toNum : Value → Option Rat
  | .b v => some (if v then 1 else 0)
  | .i v => some (v : Rat)
  | .d v => some v
  | _ => none

/-- Python `==` on runtime values: numeric values compare numerically across
`bool`/`int`/`float` (so `True == 1` and `1 == 1.0`), strings compare as
strings, locations compare componentwise, and any other cross-type comparison
is `False` (Python `==` never raises). -/
def Value.pyEq (x y : Value) : Bool :=
  match x.toNum, y.toNum with
  | some qx, some qy => qx == qy
  | _, _ =>
    match x, y with
    | .s sx, .s sy => sx == sy
    | .l lx, .l ly => lx == ly
    | _, _ => false

/-- Python `<=` on runtime values: defined across numeric types and between
strings; any other combination raises `TypeError`, modelled as `none`.
(`Location` defines no ordering.) -/
def Value.pyLe (x y : Value) : Option Bool :=
  match x.toNum, y.toNum with
  | some qx, some qy => some (qx ≤ qy)
  | _, _ =>
    match x, y with
    | .s sx, .s sy => some (sx ≤ sy)
    | _, _ => none

/-- Python `<` on runtime values, with the same domain as `Value.pyLe`. -/
def Value.pyLt (x y : Value) : Option Bool :=
  match x.toNum, y.toNum with
  | some qx, some qy => some (qx < qy)
  | _, _ =>
    match x, y with
    | .s sx, .s sy => some (sx < sy)
    | _, _ => none

/-- Python `isinstance(v, t)` restricted to the types of `Ty`, given the
runtime type of `v`: exact match, except that a `bool` value is an instance
of `int` (Python's `bool` is a subclass of `int`). -/
def isinstanceTy : Ty → Ty → Bool
  | .bool, .bool => true
  | .bool, .int => true
  | .int, .int => true
  | .float, .float => true
  | .str, .str => true
  | .location, .location => true
  | _, _ => false

/-- `oef.schema.AttributeSchema`: name, attribute type, required flag and
optional description.  The `type` field is a `Ty` because Python does not
enforce the `ATTRIBUTE_TYPES` annotation at runtime. -/
structure AttributeSchema where
  name : String
  type : Ty
  required : Bool
  description : Option String
deriving DecidableEq, Repr

/-- `AttributeSchema.__eq__`: compares name, type and required flag, and
ignores the description. -/
def AttributeSchema.pyEq (a b : AttributeSchema) : Bool :=
  a.name == b.name && a.type == b.type && a.required == b.required

/-- `oef.schema.DataModel`: name, list of attribute schemas, optional
description.  (The constructor deep-copies the attribute list, which is
invisible in a pure model.) -/
structure DataModel where
  name : String
  attribute_schemas : List AttributeSchema
  description : Option String
deriving DecidableEq, Repr

/-- `DataModel.__eq__`: compares name and attribute schemas (elementwise with
`AttributeSchema.__eq__`), ignoring the description. -/
def DataModel.pyEq (a b : DataModel) : Bool :=
  a.name == b.name
    && a.attribute_schemas.length == b.attribute_schemas.length
    && (a.attribute_schemas.zip b.attribute_schemas).all fun p => p.1.pyEq p.2

/-- Modelled from the spec: `DataModel.attributes_by_name`, used by
`Constraint.is_valid` in `src/oef/query.py`, is missing from
`src/oef/schema.py`.  Per the spec a data model's attributes have unique
names and `attributes_by_name` is the name-to-schema mapping; it is modelled
as first-match lookup in the attribute list. -/
def DataModel.attributes_by_name (m : DataModel) (n : String) : Option AttributeSchema :=
  m.attribute_schemas.find? fun a => a.name == n

/-- `oef.schema.generate_schema`: one required attribute per value, typed by
the value's runtime type, no descriptions. -/
def generate_schema (model_name : String) (attribute_values : List (String × Value)) : DataModel :=
  ⟨model_name, attribute_values.map (fun kv => ⟨kv.1, kv.2.ty, true, none⟩), none⟩

/-- The reasons `oef.schema.AttributeInconsistencyException` is raised by
`Description._check_consistency`, one constructor per `raise` site. -/
inductive AttributeInconsistency where
  | missingRequired
  | extraAttribute
  | incorrectType (name : String)
  | unallowedType (name : String)
deriving DecidableEq, Repr

/-- `oef.schema.Description`: an attribute-value mapping (a Python dict,
modelled as an association list with its insertion order) and its data
model. -/
structure Description where
  values : List (String × Value)
  data_model : DataModel
deriving DecidableEq, Repr

/-- Python dict lookup `d[k]` (first binding; a Python dict has unique
keys). -/
def dictGet (l : List (String × Value)) (k : String) : Option Value :=
  (l.find? fun kv => kv.1 == k).map fun kv => kv.2

/-- Python dict equality: same keys with `==`-equal values, irrespective of
insertion order. -/
def dictPyEq (a b : List (String × Value)) : Bool :=
  (a.all fun kv => (dictGet b kv.1).any fun v => kv.2.pyEq v)
    && (b.all fun kv => (dictGet a kv.1).any fun v => kv.2.pyEq v)

/-- `Description.__eq__`: dict equality of the values plus equality of the
data models (`DataModel.__eq__`). -/
def Description.pyEq (a b : Description) : Bool :=
  dictPyEq a.values b.values && a.data_model.pyEq b.data_model

/-- The third loop of `Description._check_consistency`: for each schema
attribute present among the values, the value must be an `isinstance` of the
schema type, and must be of one of the four `ATTRIBUTE_TYPES` (which exclude
`Location`). -/
def checkValueTypes (values : List (String × Value)) :
    List AttributeSchema → Except AttributeInconsistency Unit
  | [] => .ok ()
  | schema :: rest =>
    match dictGet values schema.name with
    | none => checkValueTypes values rest
    | some v =>
      if ¬ isinstanceTy v.ty schema.type then
        .error (.incorrectType schema.name)
      else if v.ty == .location then
        .error (.unallowedType schema.name)
      else
        checkValueTypes values rest

/-- `Description._check_consistency` for a description with a data model:
all required attributes present, no extra attributes, and all values
consistent with their schema. -/
def check_consistency (values : List (String × Value)) (m : DataModel) :
    Except AttributeInconsistency Unit :=
  let required_attributes := (m.attribute_schemas.filter fun s => s.required).map fun s => s.name
  if ¬ required_attributes.all (fun a => values.any fun kv => kv.1 == a) then
    .error .missingRequired
  else
    let all_schema_attributes := m.attribute_schemas.map fun s => s.name
    if ¬ values.all (fun kv => all_schema_attributes.contains kv.1) then
      .error .extraAttribute
    else
      checkValueTypes values m.attribute_schemas

/-- `Description.__init__`: with a data model, the consistency check runs and
may raise; without one, a schema is generated from the values and no check is
performed. -/
def Description.make (attribute_values : List (String × Value)) (data_model : Option DataModel)
    (data_model_name : String := "") : Except AttributeInconsistency Description :=
  match data_model with
  | some m =>
    match check_consistency attribute_values m with
    | .error e => .error e
    | .ok _ => .ok ⟨attribute_values, m⟩
  | none => .ok ⟨attribute_values, generate_schema data_model_name attribute_values⟩

/-- The operator of an `oef.query.Relation`: the concrete subclasses `Eq`,
`NotEq`, `Lt`, `LtEq`, `Gt`, `GtEq` of `Relation` are determined by their
`_operator`, so they are modelled as a single structure tagged with the
operator (the names follow the wire enum `Query.Relation.Operator`). -/
inductive RelOp where
  | EQ
  | NOTEQ
  | LT
  | LTEQ
  | GT
  | GTEQ
deriving DecidableEq, Repr

/-- `oef.query.Relation`: a relational constraint on an attribute value. -/
structure Relation where
  op : RelOp
  value : Value
deriving DecidableEq, Repr

/-- `Relation.check` for each concrete subclass: equality and inequality use
Python `==`/`!=` (total); the four ordering subclasses use Python ordering,
which raises `TypeError` (`none`) on unordered operands. -/
def Relation.check (r : Relation) (v : Value) : Option Bool :=
  match r.op with
  | .EQ => some (v.pyEq r.value)
  | .NOTEQ => some (!(v.pyEq r.value))
  | .LT => v.pyLt r.value
  | .LTEQ => v.pyLe r.value
  | .GT => r.value.pyLt v
  | .GTEQ => r.value.pyLe v

/-- The pairs a `oef.query.Range` can hold (`RANGE_TYPES`: a pair of `str`,
`int`, `float` or `Location`). -/
inductive RangePair where
  | s (first second : String)
  | i (first second : Int)
  | d (first second : Rat)
  | l (first second : Location)
deriving DecidableEq, Repr

/-- The first component of a range pair, as a runtime value. -/
def RangePair.firstValue : RangePair → Value
  | .s x _ => .s x
  | .i x _ => .i x
  | .d x _ => .d x
  | .l x _ => .l x

/-- The second component of a range pair, as a runtime value. -/
def RangePair.secondValue : RangePair → Value
  | .s _ x => .s x
  | .i _ x => .i x
  | .d _ x => .d x
  | .l _ x => .l x

/-- Python's chained comparison `lo <= v <= hi`: the first comparison is
evaluated first and the second one only if the first held. -/
def pyChainLe (lo v hi : Value) : Option Bool :=
  match lo.pyLe v with
  | none => none
  | some false => some false
  | some true => v.pyLe hi

/-- The operator of a `oef.query.Set` constraint: the subclasses `In` and
`NotIn` are determined by their `_operator` (wire enum `Query.Set.Operator`). -/
inductive SetOp where
  | IN
  | NOTIN
deriving DecidableEq, Repr

/-- Python `value in values` on a list: membership tested with `==`. -/
def pyMem (v : Value) (values : List Value) : Bool :=
  values.any fun e => v.pyEq e

/-- `oef.query.ConstraintType`: one case per concrete class family —
`Relation` subclasses, `Range`, `Set` subclasses (`In`/`NotIn`, holding the
plain Python list of values) and `Distance`. -/
inductive ConstraintType where
  | relation (r : Relation)
  | range (values : RangePair)
  | set (op : SetOp) (values : List Value)
  | distance (center : Location) (distance : Rat)
deriving DecidableEq, Repr

/-- `_get_type` of each constraint type: relations use the type of their
value, ranges the type of the first pair component, sets the type of their
first element (`None` when empty), and `Distance` is `Location`. -/
def ConstraintType.getType : ConstraintType → Option Ty
  | .relation r => some r.value.ty
  | .range p => some p.firstValue.ty
  | .set _ values => values.head?.map Value.ty
  | .distance _ _ => some .location

/-- `ConstraintType.check` for each case; `hav` is the (spec-modelled)
haversine distance used by `Distance.check` via `Location.distance`.
Applying `Distance.check` to a non-`Location` value raises (`none`). -/
def ConstraintType.check (hav : Location → Location → Rat) :
    ConstraintType → Value → Option Bool
  | .relation r, v => r.check v
  | .range p, v => pyChainLe p.firstValue v p.secondValue
  | .set .IN values, v => some (pyMem v values)
  | .set .NOTIN values, v => some (!(pyMem v values))
  | .distance center dist, v =>
    match v with
    | .l loc => some (hav center loc ≤ dist)
    | _ => none

/-- `ConstraintType.is_valid`: the constraint type is valid for an attribute
when its `_get_type` is `None` or equals the attribute's declared type. -/
def ConstraintType.is_valid (ct : ConstraintType) (attr : AttributeSchema) : Bool :=
  ct.getType == none || ct.getType == some attr.type

/-- Python `ConstraintType.__eq__` (per subclass): same subclass and
`==`-equal payload. -/
def ConstraintType.pyEq : ConstraintType → ConstraintType → Bool
  | .relation r1, .relation r2 => r1.op == r2.op && r1.value.pyEq r2.value
  | .range p1, .range p2 =>
    p1.firstValue.pyEq p2.firstValue && p1.secondValue.pyEq p2.secondValue
  | .set op1 v1, .set op2 v2 =>
    op1 == op2 && v1.length == v2.length && (v1.zip v2).all fun p => p.1.pyEq p.2
  | .distance c1 d1, .distance c2 d2 => c1 == c2 && d1 == d2
  | _, _ => false

/-- `oef.query.ConstraintExpr`: the constraint-expression tree — `And`, `Or`
(lists of subexpressions), `Not`, and the leaf `Constraint` over a named
attribute. -/
inductive ConstraintExpr where
  | and (constraints : List ConstraintExpr)
  | or (constraints : List ConstraintExpr)
  | not (constraint : ConstraintExpr)
  | constraint (attribute_name : String) (ct : ConstraintType)

/-- The `ValueError` sites of the validating constructors in
`oef/query.py`. -/
inductive ValueErrorKind where
  | andOrArity
  | emptyQueryConstraints
  | queryInvalidForModel
deriving DecidableEq, Repr

mutual

/-- `_check_validity`: `And`/`Or` need at least two subexpressions and then
recursively validate their children; `Not` and `Constraint` use the base
class's no-op (in particular `Not` does not recurse into its child). -/
def ConstraintExpr.check_validity : ConstraintExpr → Except ValueErrorKind Unit
  | .and cs =>
    if cs.length < 2 then .error .andOrArity else ConstraintExpr.checkValidityList cs
  | .or cs =>
    if cs.length < 2 then .error .andOrArity else ConstraintExpr.checkValidityList cs
  | .not _ => .ok ()
  | .constraint _ _ => .ok ()

/-- `_check_validity` applied to each member of a subexpression list. -/
def ConstraintExpr.checkValidityList : List ConstraintExpr → Except ValueErrorKind Unit
  | [] => .ok ()
  | c :: rest => do
    c.check_validity
    ConstraintExpr.checkValidityList rest

end

/-- `And.__init__`: stores the subexpressions and runs `_check_validity`,
raising `ValueError` on fewer than two subexpressions. -/
def mkAnd (constraints : List ConstraintExpr) : Except ValueErrorKind ConstraintExpr :=
  match (ConstraintExpr.and constraints).check_validity with
  | .error e => .error e
  | .ok _ => .ok (ConstraintExpr.and constraints)

/-- `Or.__init__`: stores the subexpressions and runs `_check_validity`,
raising `ValueError` on fewer than two subexpressions. -/
def mkOr (constraints : List ConstraintExpr) : Except ValueErrorKind ConstraintExpr :=
  match (ConstraintExpr.or constraints).check_validity with
  | .error e => .error e
  | .ok _ => .ok (ConstraintExpr.or constraints)

mutual

/-- `ConstraintExpr.check` against a description.  `And.check` is Python's
`all(...)` over the children, `Or.check` is `any(...)` (both short-circuit,
so a later child's exception is not reached once the result is decided),
`Not.check` negates, and `Constraint.check` is: `False` if the attribute is
absent, `False` if the runtime type of its value differs from the
constraint's `_get_type()`, and otherwise the constraint type's own check. -/
def ConstraintExpr.check (hav : Location → Location → Rat) :
    ConstraintExpr → Description → Option Bool
  | .and cs, description => ConstraintExpr.checkAnd hav cs description
  | .or cs, description => ConstraintExpr.checkOr hav cs description
  | .not c, description => (c.check hav description).map (!·)
  | .constraint name ct, description =>
    match dictGet description.values name with
    | none => some false
    | some v =>
      if some v.ty != ct.getType then some false
      else ct.check hav v

/-- Python `all(expr.check(description) for expr in constraints)`. -/
def ConstraintExpr.checkAnd (hav : Location → Location → Rat) :
    List ConstraintExpr → Description → Option Bool
  | [], _ => some true
  | c :: rest, description =>
    match c.check hav description with
    | none => none
    | some false => some false
    | some true => ConstraintExpr.checkAnd hav rest description

/-- Python `any(expr.check(description) for expr in constraints)`. -/
def ConstraintExpr.checkOr (hav : Location → Location → Rat) :
    List ConstraintExpr → Description → Option Bool
  | [], _ => some false
  | c :: rest, description =>
    match c.check hav description with
    | none => none
    | some true => some true
    | some false => ConstraintExpr.checkOr hav rest description

end

mutual

/-- `ConstraintExpr.is_valid` against a data model: `And`/`Or` require all
children valid, `Not` delegates, and a leaf `Constraint` requires its
attribute to exist in the model and its constraint type to be valid for that
attribute. -/
def ConstraintExpr.is_valid : ConstraintExpr → DataModel → Bool
  | .and cs, m => ConstraintExpr.isValidList cs m
  | .or cs, m => ConstraintExpr.isValidList cs m
  | .not c, m => c.is_valid m
  | .constraint name ct, m =>
    match m.attributes_by_name name with
    | none => false
    | some attr => ct.is_valid attr

/-- `all(c.is_valid(data_model) for c in constraints)`. -/
def ConstraintExpr.isValidList : List ConstraintExpr → DataModel → Bool
  | [], _ => true
  | c :: rest, m => c.is_valid m && ConstraintExpr.isValidList rest m

end

mutual

/-- Python `ConstraintExpr.__eq__`: same node class with `==`-equal
payloads, recursively. -/
def ConstraintExpr.pyEq : ConstraintExpr → ConstraintExpr → Bool
  | .and xs, .and ys => ConstraintExpr.listPyEq xs ys
  | .or xs, .or ys => ConstraintExpr.listPyEq xs ys
  | .not x, .not y => x.pyEq y
  | .constraint n1 c1, .constraint n2 c2 => n1 == n2 && c1.pyEq c2
  | _, _ => false

/-- Python list `==` over constraint expressions. -/
def ConstraintExpr.listPyEq : List ConstraintExpr → List ConstraintExpr → Bool
  | [], [] => true
  | x :: xs, y :: ys => x.pyEq y && ConstraintExpr.listPyEq xs ys
  | _, _ => false

end

mutual

/-- The constraint expressions reachable through the Python constructors:
every `And`/`Or` node anywhere in the tree has at least two children
(each `And`/`Or` ran its own `_check_validity` when it was built). -/
def ConstraintExpr.wellFormed : ConstraintExpr → Bool
  | .and cs => decide (2 ≤ cs.length) && ConstraintExpr.listWellFormed cs
  | .or cs => decide (2 ≤ cs.length) && ConstraintExpr.listWellFormed cs
  | .not c => c.wellFormed
  | .constraint _ _ => true

/-- `ConstraintExpr.wellFormed` for each member of a list. -/
def ConstraintExpr.listWellFormed : List ConstraintExpr → Bool
  | [] => true
  | c :: rest => c.wellFormed && ConstraintExpr.listWellFormed rest

end

/-- `oef.query.Query`: a list of constraint expressions and an optional data
model. -/
structure Query where
  constraints : List ConstraintExpr
  model : Option DataModel

/-- `Query.is_valid`: `True` when no data model is given, otherwise all
constraints must be valid for it. -/
def Query.is_valid (q : Query) (data_model : Option DataModel) : Bool :=
  match data_model with
  | none => true
  | some m => ConstraintExpr.isValidList q.constraints m

/-- `Query.check`: the conjunction (`all`) of the constraints' checks. -/
def Query.check (hav : Location → Location → Rat) (q : Query) (description : Description) :
    Option Bool :=
  ConstraintExpr.checkAnd hav q.constraints description

/-- `Query.__init__`/`Query._check_validity`: at least one constraint, and
the query must be valid for its own model; raises `ValueError` otherwise. -/
def mkQuery (constraints : List ConstraintExpr) (model : Option DataModel) :
    Except ValueErrorKind Query :=
  let q : Query := ⟨constraints, model⟩
  if q.constraints.length < 1 then .error .emptyQueryConstraints
  else if ¬ q.is_valid q.model then .error .queryInvalidForModel
  else .ok q

/-- Python `model ==` for the optional model of a query (`None == None` is
`True`; `None` never equals a model). -/
def optionModelPyEq : Option DataModel → Option DataModel → Bool
  | none, none => true
  | some a, some b => a.pyEq b
  | _, _ => false

/-- `Query.__eq__`: constraints compare as Python lists, models with
`DataModel.__eq__`. -/
def Query.pyEq (a b : Query) : Bool :=
  ConstraintExpr.listPyEq a.constraints b.constraints && optionModelPyEq a.model b.model

namespace Pb

/-- Wire `Query.Value`: the tagged-union value encoding with tags
`s`/`b`/`i`/`d`/`l`. -/
inductive Value where
  | s (v : String)
  | b (v : Bool)
  | i (v : Int)
  | d (v : Rat)
  | l (v : Location)
deriving DecidableEq, Repr

/-- Wire `Query.Relation`: an operator and a tagged value. -/
structure Relation where
  op : RelOp
  val : Value
deriving DecidableEq, Repr

/-- Wire `Query.Range`: the oneof over the four typed pair encodings. -/
inductive Range where
  | s (first second : String)
  | i (first second : Int)
  | d (first second : Rat)
  | l (first second : Location)
deriving DecidableEq, Repr

/-- Wire `Query.Set.Values`: the oneof over the five typed list
encodings. -/
inductive SetValues where
  | s (vals : List String)
  | b (vals : List Bool)
  | i (vals : List Int)
  | d (vals : List Rat)
  | l (vals : List Location)
deriving DecidableEq, Repr

/-- Wire `Query.Set`: an operator and typed values. -/
structure Set where
  op : SetOp
  vals : SetValues
deriving DecidableEq, Repr

/-- Wire `Query.Distance`. -/
structure Distance where
  center : Location
  distance : Rat
deriving DecidableEq, Repr

/-- The oneof of wire `Query.ConstraintExpr.Constraint`. -/
inductive ConstraintCase where
  | relation (r : Relation)
  | range (r : Range)
  | set (s : Set)
  | distance (d : Distance)
deriving DecidableEq, Repr

/-- Wire `Query.ConstraintExpr.Constraint`. -/
structure Constraint where
  attribute_name : String
  constraint : ConstraintCase
deriving DecidableEq, Repr

/-- Wire `Query.ConstraintExpr`: the oneof over `and_`/`or_`/`not_` and the
leaf constraint. -/
inductive ConstraintExpr where
  | and_ (expr : List ConstraintExpr)
  | or_ (expr : List ConstraintExpr)
  | not_ (expr : ConstraintExpr)
  | constraint (c : Constraint)

/-- Wire `Query.Attribute.Type` enum. -/
inductive AttributeType where
  | BOOL
  | INT
  | DOUBLE
  | STRING
deriving DecidableEq, Repr

/-- Wire `Query.Attribute`; proto3 scalar `description` defaults to the empty
string. -/
structure Attribute where
  name : String
  type : AttributeType
  required : Bool
  description : String
deriving DecidableEq, Repr

/-- Wire `Query.DataModel`. -/
structure DataModel where
  name : String
  attributes : List Attribute
  description : String
deriving DecidableEq, Repr

/-- Wire `Query.KeyValue`. -/
structure KeyValue where
  key : String
  value : Value
deriving DecidableEq, Repr

/-- Wire `Query.Instance`: a data model and the key-value pairs. -/
structure Instance where
  model : DataModel
  values : List KeyValue
deriving DecidableEq, Repr

/-- Wire `Query.Model` (the encoding of a whole `Query`): the constraint
expressions and the optional data model (`HasField` distinguishes absent). -/
structure QueryModel where
  constraints : List ConstraintExpr
  model : Option DataModel

end Pb

/-- The value branch of `Relation.to_pb`: the `isinstance` chain over
`bool`, `int`, `float`, `str`, `Location` (every case of `Value` is
covered). -/
def valueToPb : Value → Pb.Value
  | .b v => .b v
  | .i v => .i v
  | .d v => .d v
  | .s v => .s v
  | .l v => .l v

/-- The value branch of `Relation.from_pb`: dispatch on the wire value
tag. -/
def pbToValue : Pb.Value → Value
  | .s v => .s v
  | .b v => .b v
  | .i v => .i v
  | .d v => .d v
  | .l v => .l v

/-- `Relation.to_pb`: the subclass `_operator` becomes the wire operator, the
value is encoded by its runtime type. -/
def Relation.to_pb (r : Relation) : Pb.Relation :=
  ⟨r.op, valueToPb r.value⟩

/-- `Relation.from_pb`: the wire operator selects the subclass
(`relations_from_pb`), the value case selects the value. -/
def Relation.from_pb (pb : Pb.Relation) : Relation :=
  ⟨pb.op, pbToValue pb.val⟩

/-- `Range.to_pb`: dispatch on the type of the first pair component. -/
def RangePair.to_pb : RangePair → Pb.Range
  | .s x y => .s x y
  | .i x y => .i x y
  | .d x y => .d x y
  | .l x y => .l x y

/-- `Range.from_pb`: dispatch on the wire pair case. -/
def RangePair.from_pb : Pb.Range → RangePair
  | .s x y => .s x y
  | .i x y => .i x y
  | .d x y => .d x y
  | .l x y => .l x y

/-- Encode each element of a list, failing as soon as one element fails (the
behaviour of a protobuf `extend`/`CopyFrom` loop hitting a bad element). -/
def mapOption {α β : Type} (f : α → Option β) : List α → Option (List β)
  | [] => some []
  | x :: rest =>
    match f x with
    | none => none
    | some y => (mapOption f rest).map fun ys => y :: ys

/-- The string content of a value, used when `Set.to_pb` encodes into a
string list. -/
def Value.projS : Value → Option String
  | .s v => some v
  | _ => none

/-- The bool content of a value. -/
def Value.projB : Value → Option Bool
  | .b v => some v
  | _ => none

/-- The int content of a value. -/
def Value.projI : Value → Option Int
  | .i v => some v
  | _ => none

/-- The float content of a value. -/
def Value.projD : Value → Option Rat
  | .d v => some v
  | _ => none

/-- The location content of a value. -/
def Value.projL : Value → Option Location
  | .l v => some v
  | _ => none

/-- `Set.to_pb`: the encoding is chosen by the type of the first element
(`str` for an empty set), and every element is placed into the resulting
typed repeated field.  A heterogeneous list — outside the declared
`SET_TYPES` — makes the protobuf `extend` call raise, modelled as `none`. -/
def setToPb (op : SetOp) (values : List Value) : Option Pb.Set :=
  let value_type := ((values.head?).map Value.ty).getD .str
  match value_type with
  | .str => (mapOption Value.projS values).map fun vs => ⟨op, .s vs⟩
  | .bool => (mapOption Value.projB values).map fun vs => ⟨op, .b vs⟩
  | .int => (mapOption Value.projI values).map fun vs => ⟨op, .i vs⟩
  | .float => (mapOption Value.projD values).map fun vs => ⟨op, .d vs⟩
  | .location => (mapOption Value.projL values).map fun vs => ⟨op, .l vs⟩

/-- `Set.from_pb`: the wire operator selects `In`/`NotIn` (`op_from_pb`), the
values case rebuilds the plain list of values. -/
def setFromPb (pb : Pb.Set) : SetOp × List Value :=
  match pb.vals with
  | .s vs => (pb.op, vs.map Value.s)
  | .b vs => (pb.op, vs.map Value.b)
  | .i vs => (pb.op, vs.map Value.i)
  | .d vs => (pb.op, vs.map Value.d)
  | .l vs => (pb.op, vs.map Value.l)

/-- `Distance.to_pb`. -/
def distanceToPb (center : Location) (distance : Rat) : Pb.Distance :=
  ⟨center, distance⟩

/-- The `isinstance` dispatch of `Constraint.to_pb` over the four constraint
type families. -/
def ConstraintType.to_pb : ConstraintType → Option Pb.ConstraintCase
  | .relation r => some (.relation r.to_pb)
  | .range p => some (.range p.to_pb)
  | .set op values => (setToPb op values).map .set
  | .distance center dist => some (.distance (distanceToPb center dist))

/-- The oneof dispatch of `Constraint.from_pb` over the four constraint type
families. -/
def ConstraintType.from_pb : Pb.ConstraintCase → ConstraintType
  | .relation r => .relation (Relation.from_pb r)
  | .range r => .range (RangePair.from_pb r)
  | .set s => .set (setFromPb s).1 (setFromPb s).2
  | .distance d => .distance d.center d.distance

mutual

/-- `ConstraintExpr._to_pb` composed with each node's `to_pb`: the node class
selects the oneof case, children are encoded in order. -/
def ConstraintExpr.to_pb : ConstraintExpr → Option Pb.ConstraintExpr
  | .and cs => (ConstraintExpr.listToPb cs).map .and_
  | .or cs => (ConstraintExpr.listToPb cs).map .or_
  | .not c => c.to_pb.map .not_
  | .constraint name ct => ct.to_pb.map fun cc => .constraint ⟨name, cc⟩

/-- Encoding of a list of subexpressions, in order. -/
def ConstraintExpr.listToPb : List ConstraintExpr → Option (List Pb.ConstraintExpr)
  | [] => some []
  | c :: rest =>
    match c.to_pb with
    | none => none
    | some cpb => (ConstraintExpr.listToPb rest).map fun restPb => cpb :: restPb

end

mutual

/-- `ConstraintExpr._from_pb` composed with each node's `from_pb`: children
are decoded first and then handed to the node's constructor, so decoding an
`And`/`Or` re-runs its arity validation. -/
def ConstraintExpr.from_pb : Pb.ConstraintExpr → Except ValueErrorKind ConstraintExpr
  | .and_ pbs =>
    match ConstraintExpr.listFromPb pbs with
    | .error e => .error e
    | .ok cs => mkAnd cs
  | .or_ pbs =>
    match ConstraintExpr.listFromPb pbs with
    | .error e => .error e
    | .ok cs => mkOr cs
  | .not_ pb =>
    match ConstraintExpr.from_pb pb with
    | .error e => .error e
    | .ok c => .ok (.not c)
  | .constraint c => .ok (.constraint c.attribute_name (ConstraintType.from_pb c.constraint))

/-- Decoding of a list of subexpressions, in order. -/
def ConstraintExpr.listFromPb : List Pb.ConstraintExpr → Except ValueErrorKind (List ConstraintExpr)
  | [] => .ok []
  | pb :: rest =>
    match ConstraintExpr.from_pb pb with
    | .error e => .error e
    | .ok c =>
      match ConstraintExpr.listFromPb rest with
      | .error e => .error e
      | .ok cs => .ok (c :: cs)

end

/-- `AttributeSchema._attribute_type_to_pb`: the dict from Python types to
wire enum values; a type outside the dict (such as `Location`) raises
`KeyError`, modelled as `none`. -/
def attrTyToPb : Ty → Option Pb.AttributeType
  | .bool => some .BOOL
  | .int => some .INT
  | .float => some .DOUBLE
  | .str => some .STRING
  | .location => none

/-- The reversed `_attribute_type_to_pb` dict used by
`AttributeSchema.from_pb`. -/
def Pb.AttributeType.toTy : Pb.AttributeType → Ty
  | .BOOL => .bool
  | .INT => .int
  | .DOUBLE => .float
  | .STRING => .str

/-- `AttributeSchema.to_pb`: the description is written only when present
(otherwise the proto3 default empty string remains). -/
def AttributeSchema.to_pb (a : AttributeSchema) : Option Pb.Attribute :=
  (attrTyToPb a.type).map fun t => ⟨a.name, t, a.required, a.description.getD ""⟩

/-- `AttributeSchema.from_pb`: an empty wire description becomes `None`. -/
def AttributeSchema.from_pb (pb : Pb.Attribute) : AttributeSchema :=
  ⟨pb.name, pb.type.toTy, pb.required, if pb.description == "" then none else some pb.description⟩

/-- `DataModel.to_pb`: attributes in order; the description is written only
when present. -/
def DataModel.to_pb (m : DataModel) : Option Pb.DataModel :=
  (mapOption AttributeSchema.to_pb m.attribute_schemas).map fun attrs =>
    ⟨m.name, attrs, m.description.getD ""⟩

/-- `DataModel.from_pb`: the wire description string is stored as-is (so a
model without description round-trips to one whose description is the empty
string; `DataModel.__eq__` ignores it). -/
def DataModel.from_pb (pb : Pb.DataModel) : DataModel :=
  ⟨pb.name, pb.attributes.map AttributeSchema.from_pb, some pb.description⟩

/-- `Description._to_key_value_pb`: the `isinstance` chain covers `bool`,
`int`, `float` and `str`; a `Location` value matches no branch, leaving the
oneof unset and losing the value — modelled as an encoding failure
(`Description` values are declared `ATTRIBUTE_TYPES`, which exclude
`Location`). -/
def valueToKeyValuePb : Value → Option Pb.Value
  | .b v => some (.b v)
  | .i v => some (.i v)
  | .d v => some (.d v)
  | .s v => some (.s v)
  | .l _ => none

/-- `Description._extract_value`: the four attribute value cases; a wire
location value matches no branch and the Python function returns `None`. -/
def extract_value : Pb.Value → Option Value
  | .s v => some (.s v)
  | .b v => some (.b v)
  | .i v => some (.i v)
  | .d v => some (.d v)
  | .l _ => none

/-- One Python dict insertion `d[k] = v` on an association list: overwrite
the first binding of an existing key in place, append a new key at the
end. -/
def dictSet {β : Type} : List (String × β) → String → β → List (String × β)
  | [], k, v => [(k, v)]
  | kv :: rest, k, v =>
    if kv.1 == k then (k, v) :: rest else kv :: dictSet rest k v

/-- Python dict key-membership `k in d`. -/
def dictContains {β : Type} (l : List (String × β)) (k : String) : Bool :=
  l.any fun kv => kv.1 == k

/-- Python `dict.pop(k)` (the removal part). -/
def dictRemove {β : Type} : List (String × β) → String → List (String × β)
  | [], _ => []
  | kv :: rest, k => if kv.1 == k then rest else kv :: dictRemove rest k

/-- Python dict lookup on an association list with an arbitrary value type
(first binding). -/
def dictLookup {β : Type} (l : List (String × β)) (k : String) : Option β :=
  (l.find? fun kv => kv.1 == k).map fun kv => kv.2

/-- Python dict construction from a key-value list: insert one pair after
the other. -/
def pyDict (l : List (String × Value)) : List (String × Value) :=
  l.foldl (fun acc kv => dictSet acc kv.1 kv.2) []

/-- `Description.to_pb`: the model and the key-value pairs in insertion
order. -/
def Description.to_pb (d : Description) : Option Pb.Instance :=
  match d.data_model.to_pb with
  | none => none
  | some modelPb =>
    match mapOption (fun kv => (valueToKeyValuePb kv.2).map fun v => (⟨kv.1, v⟩ : Pb.KeyValue)) d.values with
    | none => none
    | some valuesPb => some ⟨modelPb, valuesPb⟩

/-- `Description.from_pb`: rebuilds the value dict and runs the validating
constructor.  A wire instance containing a location value would put Python
`None` into the dict, which then fails the constructor's consistency check;
that case is unreachable from `Description.to_pb` and is modelled as the
`incorrectType` failure directly. -/
def Description.from_pb (pb : Pb.Instance) : Except AttributeInconsistency Description :=
  match pb.values.find? fun kv => (extract_value kv.value).isNone with
  | some kv => .error (.incorrectType kv.key)
  | none =>
    Description.make
      (pyDict (pb.values.filterMap fun kv => (extract_value kv.value).map fun v => (kv.key, v)))
      (some (DataModel.from_pb pb.model))

/-- `Query.to_pb`: constraints in order and the optional model. -/
def Query.to_pb (q : Query) : Option Pb.QueryModel :=
  match ConstraintExpr.listToPb q.constraints with
  | none => none
  | some cs =>
    match q.model with
    | none => some ⟨cs, none⟩
    | some m =>
      match m.to_pb with
      | none => none
      | some mpb => some ⟨cs, some mpb⟩

/-- `Query.from_pb`: decodes the constraints and the optional model, then
runs the validating constructor. -/
def Query.from_pb (pb : Pb.QueryModel) : Except ValueErrorKind Query :=
  match ConstraintExpr.listFromPb pb.constraints with
  | .error e => .error e
  | .ok cs => mkQuery cs (pb.model.map DataModel.from_pb)

/-- The payload an outbound `CFP` carries (`CFP_TYPES`): a query, opaque
bytes, or nothing. -/
inductive CfpPayload where
  | nothing
  | query (q : Query)
  | content (data : List Nat)

/-- The payload an outbound `Propose` carries (`PROPOSE_TYPES`): opaque bytes
or a list of descriptions. -/
inductive ProposePayload where
  | content (data : List Nat)
  | proposals (ds : List Description)

/-- The FIPA message cases built by `oef/messages.py` (`CFP`, `Propose`,
`Accept`, `Decline`), each with the target message id. -/
inductive FipaBody where
  | cfp (query : CfpPayload)
  | propose (proposals : ProposePayload)
  | accept
  | decline

/-- The payload of an agent-to-agent envelope: plain content bytes
(`Message`) or a FIPA message. -/
inductive MessagePayload where
  | content (data : List Nat)
  | fipa (target : Int) (body : FipaBody)

/-- An `oef.messages.AgentMessage` as submitted to the broker: message id,
dialogue id, destination and payload. -/
structure AgentMessage where
  msg_id : Int
  dialogue_id : Int
  destination : String
  payload : MessagePayload

/-- The `Server.AgentMessage` the broker builds in `_send_agent_message`:
the original message id as `answer_id`, the sender stamped as `origin`, the
dialogue id and the payload. -/
structure ServerAgentMessage where
  answer_id : Int
  origin : String
  dialogue_id : Int
  payload : MessagePayload

/-- An item in an agent's mailbox queue: a relayed agent message or a
search-result message (`answer_id` is the search id). -/
inductive MailboxItem where
  | agentMessage (m : ServerAgentMessage)
  | searchResult (answer_id : Int) (agents : List String)

/-- The state of `OEFLocalProxy.LocalNode`: the agent directory, the service
directory, and the per-agent mailbox queues (`_queues`).  (The intake queue
is passed explicitly to `process_messages`; the broker lock serializes the
mutations, which explicit state passing models directly.) -/
structure LocalNode where
  agents : List (String × Description)
  services : List (String × List Description)
  queues : List (String × List MailboxItem)

/-- The freshly initialized local node: empty registries, no mailboxes. -/
def LocalNode.init : LocalNode :=
  ⟨[], [], []⟩

/-- `LocalNode.connect`: refuse (`None`) when the public key already has a
mailbox, otherwise allocate a fresh queue for it. -/
def LocalNode.node_connect (st : LocalNode) (public_key : String) : Option LocalNode :=
  if dictContains st.queues public_key then none
  else some {st with queues := st.queues ++ [(public_key, [])]}

/-- `LocalNode.register_agent`: dict assignment into the agent directory
(re-registration overwrites). -/
def LocalNode.register_agent (st : LocalNode) (public_key : String)
    (agent_description : Description) : LocalNode :=
  {st with agents := dictSet st.agents public_key agent_description}

/-- The `defaultdict(list)` append of `register_service`: append to the
existing list of the first binding, or bind the key at the end to the new
one-element list. -/
def serviceAppend : List (String × List Description) → String → Description →
    List (String × List Description)
  | [], k, d => [(k, [d])]
  | kv :: rest, k, d =>
    if kv.1 == k then (kv.1, kv.2 ++ [d]) :: rest else kv :: serviceAppend rest k d

/-- `LocalNode.register_service`: append the description to the agent's
service list (`self.services[public_key].append(...)`). -/
def LocalNode.register_service (st : LocalNode) (public_key : String)
    (service_description : Description) : LocalNode :=
  {st with services := serviceAppend st.services public_key service_description}

/-- Python `list.remove`: drop the first `==`-equal element, `None` when no
element matches (`ValueError`). -/
def pyRemove (l : List Description) (d : Description) : Option (List Description) :=
  match l with
  | [] => none
  | x :: rest => if x.pyEq d then some rest else (pyRemove rest d).map fun r => x :: r

/-- `LocalNode.unregister_service`: `self.services[public_key].remove(d)` on
the `defaultdict` (so an unknown key first acquires an empty binding), then
the key is popped if its list became empty.  The flag is `False` when
`remove` raises `ValueError`; the returned state is the registry the code
leaves behind in that case too. -/
def LocalNode.unregister_service (st : LocalNode) (public_key : String)
    (service_description : Description) : Bool × LocalNode :=
  let services1 :=
    if dictContains st.services public_key then st.services
    else st.services ++ [(public_key, [])]
  let ds := (dictLookup services1 public_key).getD []
  match pyRemove ds service_description with
  | none => (false, {st with services := services1})
  | some ds' =>
    if ds'.isEmpty then (true, {st with services := dictRemove services1 public_key})
    else (true, {st with services := dictSet services1 public_key ds'})

/-- Python `sorted(set(result))`: the distinct elements in ascending
lexicographic string order. -/
def sortedSet (l : List String) : List String :=
  (l.dedup).insertionSort (fun a b => a ≤ b)

/-- The collection loop of `search_agents`: the keys whose description
satisfies the query, in directory order; a check that raises aborts the
search (`none`). -/
def matchingAgents (hav : Location → Location → Rat) (q : Query) :
    List (String × Description) → Option (List String)
  | [] => some []
  | (k, d) :: rest =>
    match q.check hav d with
    | none => none
    | some true => (matchingAgents hav q rest).map fun r => k :: r
    | some false => matchingAgents hav q rest

/-- The inner loop of `search_services` over one agent's descriptions: one
occurrence of the key per matching description. -/
def matchingInList (hav : Location → Location → Rat) (q : Query) (k : String) :
    List Description → Option (List String)
  | [] => some []
  | d :: rest =>
    match q.check hav d with
    | none => none
    | some true => (matchingInList hav q k rest).map fun r => k :: r
    | some false => matchingInList hav q k rest

/-- The collection loop of `search_services` over the service directory. -/
def matchingServices (hav : Location → Location → Rat) (q : Query) :
    List (String × List Description) → Option (List String)
  | [] => some []
  | (k, ds) :: rest =>
    match matchingInList hav q k ds with
    | none => none
    | some xs =>
      match matchingServices hav q rest with
      | none => none
      | some ys => some (xs ++ ys)

/-- `LocalNode.search_agents`: evaluate the query against every agent
directory entry and send the requester a search-result message carrying the
request's `search_id` as `answer_id` and `sorted(set(result))` as the agent
list (`_send_search_result`). -/
def LocalNode.search_agents (hav : Location → Location → Rat) (st : LocalNode)
    (search_id : Int) (query : Query) : Option MailboxItem :=
  (matchingAgents hav query st.agents).map fun result =>
    .searchResult search_id (sortedSet result)

/-- `LocalNode.search_services`: evaluate the query against every
description in the service directory and send the requester a search-result
message with `answer_id = search_id` and `sorted(set(result))`. -/
def LocalNode.search_services (hav : Location → Location → Rat) (st : LocalNode)
    (search_id : Int) (query : Query) : Option MailboxItem :=
  (matchingServices hav query st.services).map fun result =>
    .searchResult search_id (sortedSet result)

/-- Append an item to the mailbox of a connected key (`put_nowait` on
`self._queues[destination]`); callers guard key membership. -/
def dictAppendItem : List (String × List MailboxItem) → String → MailboxItem →
    List (String × List MailboxItem)
  | [], _, _ => []
  | kv :: rest, k, x =>
    if kv.1 == k then (kv.1, kv.2 ++ [x]) :: rest else kv :: dictAppendItem rest k x

/-- `LocalNode._send_agent_message`: build the `Server.AgentMessage` (the
sender stamped as origin) and put it on `self._queues[destination]`; a
destination with no mailbox makes the dict subscript raise `KeyError`,
modelled as `Except.error`. -/
def LocalNode.send_agent_message (st : LocalNode) (origin : String) (msg : AgentMessage) :
    Except Unit LocalNode :=
  let new_msg : ServerAgentMessage := ⟨msg.msg_id, origin, msg.dialogue_id, msg.payload⟩
  if dictContains st.queues msg.destination then
    .ok {st with queues := dictAppendItem st.queues msg.destination (.agentMessage new_msg)}
  else
    .error ()

/-- `LocalNode._process_messages`: consume the intake queue one item at a
time and relay each; only queue-get cancellation is caught, so an exception
raised by the relay propagates and terminates the loop. -/
def LocalNode.process_messages (st : LocalNode) :
    List (String × AgentMessage) → Except Unit LocalNode
  | [] => .ok st
  | (public_key, msg) :: rest =>
    match st.send_agent_message public_key msg with
    | .error e => .error e
    | .ok st' => st'.process_messages rest

/-- The transport underlying an established network connection; `is_closing`
is the state asyncio reports after the peer or the proxy closed it. -/
structure Transport where
  is_closing : Bool

/-- The connection-relevant state of `OEFNetworkProxy`: `_connection` (with
its writer's transport), `None` before `connect` and after `stop`. -/
structure OEFNetworkProxyState where
  connection : Option Transport

/-- The messages the network handshake writes to the server: the public key
(step 1) and the reversed challenge phrase (step 3). -/
inductive HandshakeSend where
  | id (public_key : String)
  | answer (text : String)

/-- The environment of one handshake run: the transport the dial returns,
the server's phrase (`none` is the failure marker of step 2) and the
connected status of step 4. -/
structure HandshakeEnv where
  transport : Transport
  phrase : Option String
  status : Bool

/-- Steps 1-4 of `OEFNetworkProxy.connect` past the early return: dial,
send the id, receive the phrase (failure terminates with `False`), send the
phrase reversed, return the received status.  The sends are returned as a
trace. -/
def runHandshake (public_key : String) (env : HandshakeEnv) :
    Bool × OEFNetworkProxyState × List HandshakeSend :=
  let st' : OEFNetworkProxyState := ⟨some env.transport⟩
  match env.phrase with
  | none => (false, st', [.id public_key])
  | some p => (env.status, st', [.id public_key, .answer (String.mk p.data.reverse)])

/-- `OEFNetworkProxy.connect`: `True` immediately — no handshake sends, no
state change — when already connected with a transport that is not closing;
otherwise the full handshake runs. -/
def OEFNetworkProxy.connect (st : OEFNetworkProxyState) (public_key : String)
    (env : HandshakeEnv) : Bool × OEFNetworkProxyState × List HandshakeSend :=
  match st.connection with
  | some t => if t.is_closing then runHandshake public_key env else (true, st, [])
  | none => runHandshake public_key env

/-- The connection-relevant state of `OEFLocalProxy`: its public key and
`_connection` (the queue pair returned by the node, `None` before `connect`
and after `stop`). -/
structure OEFLocalProxyState where
  public_key : String
  connection : Option Unit

/-- `OEFLocalProxy.connect`: `True` immediately — without calling into the
broker — when `_connection` is already set; otherwise register with the
node, which refuses duplicate keys (`False`). -/
def OEFLocalProxy.connect (st : OEFLocalProxyState) (node : LocalNode) :
    Bool × OEFLocalProxyState × LocalNode :=
  match st.connection with
  | some _ => (true, st, node)
  | none =>
    match node.node_connect st.public_key with
    | none => (false, st, node)
    | some node' => (true, {st with connection := some ()}, node')

/-- One service-directory call: `register_service` or `unregister_service`
for a given agent id and description. -/
inductive ServiceOp where
  | reg (public_key : String) (d : Description)
  | unreg (public_key : String) (d : Description)

/-- Run a sequence of service-directory calls; `none` as soon as an
`unregister_service` fails (`ValueError`), so a `some` result is a sequence
of successful calls. -/
def applyServiceOps : LocalNode → List ServiceOp → Option LocalNode
  | st, [] => some st
  | st, .reg pk d :: rest => applyServiceOps (st.register_service pk d) rest
  | st, .unreg pk d :: rest =>
    match st.unregister_service pk d with
    | (true, st') => applyServiceOps st' rest
    | (false, _) => none

/-- The dialogue-relevant state of `oef.dialogue.DialogueAgent`: the
registered sessions, keyed by `(peer, dialogue_id)`.  Session objects are
abstracted to identifiers; a claim about dispatch only needs which session a
message reaches. -/
structure DialogueAgentState where
  dialogues : List ((String × Int) × Nat)

/-- `_get_dialogue` without the raise: look the key up in the session
dict. -/
def DialogueAgentState.getDialogue (st : DialogueAgentState) (key : String × Int) : Option Nat :=
  (st.dialogues.find? fun kv => kv.1 == key).map fun kv => kv.2

/-- Where an inbound message ends up: the typed handler of a registered
session, the new-session hook (`on_new_message`/`on_new_cfp`), or the
`KeyError` of `_get_dialogue`. -/
inductive DispatchOutcome where
  | delegated (session : Nat)
  | newSessionHook
  | keyError
deriving DecidableEq, Repr

/-- `DialogueAgent.on_message`: delegate to the session registered for
`(origin, dialogue_id)`; on `KeyError`, fall back to `on_new_message`. -/
def DialogueAgent.on_message (st : DialogueAgentState) (origin : String)
    (dialogue_id : Int) : DispatchOutcome :=
  match st.getDialogue (origin, dialogue_id) with
  | some session => .delegated session
  | none => .newSessionHook

/-- `DialogueAgent.on_cfp`: delegate to the registered session; on
`KeyError`, fall back to `on_new_cfp`. -/
def DialogueAgent.on_cfp (st : DialogueAgentState) (origin : String)
    (dialogue_id : Int) : DispatchOutcome :=
  match st.getDialogue (origin, dialogue_id) with
  | some session => .delegated session
  | none => .newSessionHook

/-- `DialogueAgent.on_propose`: delegate to the registered session; no
fallback, an unknown key surfaces the `KeyError` of `_get_dialogue`. -/
def DialogueAgent.on_propose (st : DialogueAgentState) (origin : String)
    (dialogue_id : Int) : DispatchOutcome :=
  match st.getDialogue (origin, dialogue_id) with
  | some session => .delegated session
  | none => .keyError

/-- `DialogueAgent.on_accept`: delegate to the registered session; no
fallback. -/
def DialogueAgent.on_accept (st : DialogueAgentState) (origin : String)
    (dialogue_id : Int) : DispatchOutcome :=
  match st.getDialogue (origin, dialogue_id) with
  | some session => .delegated session
  | none => .keyError

/-- `DialogueAgent.on_decline`: delegate to the registered session; no
fallback. -/
def DialogueAgent.on_decline (st : DialogueAgentState) (origin : String)
    (dialogue_id : Int) : DispatchOutcome :=
  match st.getDialogue (origin, dialogue_id) with
  | some session => .delegated session
  | none => .keyError

theorem value_pyEq_refl (v : Value) : v.pyEq v = true := by
  cases v <;> simp [Value.pyEq, Value.toNum]

theorem pyMem_of_mem {x : Value} {S : List Value} (h : x ∈ S) : pyMem x S = true := by
  simp only [pyMem, List.any_eq_true]
  exact ⟨x, h, value_pyEq_refl x⟩

/-- C1 (amended): `Constraint.check` returns `False` when the attribute is
absent from the description, `False` when the constraint's required type is
`None` (so a type-agnostic `None`, which only an empty `Set` constraint
produces, rejects every value instead of delegating), `False` when the
value's runtime type differs from the required type, and otherwise exactly
the `ConstraintType`'s own check of the value. -/
theorem c1_constraint_check_dispatch (hav : Location → Location → Rat) (d : Description)
    (name : String) (ct : ConstraintType) :
    (dictGet d.values name = none →
      (ConstraintExpr.constraint name ct).check hav d = some false)
    ∧ (∀ v, dictGet d.values name = some v → ct.getType = none →
      (ConstraintExpr.constraint name ct).check hav d = some false)
    ∧ (∀ v t, dictGet d.values name = some v → ct.getType = some t → v.ty ≠ t →
      (ConstraintExpr.constraint name ct).check hav d = some false)
    ∧ (∀ v, dictGet d.values name = some v → ct.getType = some v.ty →
      (ConstraintExpr.constraint name ct).check hav d = ct.check hav v) := by
  refine ⟨?_, ?_, ?_, ?_⟩
  · intro h
    simp [ConstraintExpr.check, h]
  · intro v h hg
    simp [ConstraintExpr.check, h, hg]
  · intro v t h hg hne
    have hb : (some v.ty != ct.getType) = true := by
      rw [hg]
      exact bne_iff_ne.mpr (by simpa using hne)
    simp [ConstraintExpr.check, h, hb]
  · intro v h hg
    have hb : (some v.ty != ct.getType) = false := by
      rw [hg]
      simp
    simp [ConstraintExpr.check, h, hb]

/-- C1, counterexample to the claim as stated: the constraint type
`NotIn([])` has required type `None`, so per the claim the check should be
type-agnostic and delegate (here: `1 not in []`, i.e. `True`); the code
instead returns `False`, because `type(value) != None` holds for every
value. -/
theorem c1_counterexample :
    (ConstraintType.set .NOTIN ([] : List Value)).getType = none
    ∧ (ConstraintType.set .NOTIN []).check (fun _ _ => 0) (Value.i 1) = some true
    ∧ (ConstraintExpr.constraint "a" (.set .NOTIN [])).check (fun _ _ => 0)
        ⟨[("a", Value.i 1)], generate_schema "" [("a", Value.i 1)]⟩ = some false :=
  ⟨rfl, rfl, rfl⟩

/-- C1, witness: a well-typed present attribute delegates to the constraint
type's own check. -/
theorem c1_witness :
    (ConstraintExpr.constraint "year" (.relation ⟨.GT, Value.i 1990⟩)).check (fun _ _ => 0)
      ⟨[("year", Value.i 1991)], generate_schema "" [("year", Value.i 1991)]⟩
    = (ConstraintType.relation ⟨.GT, Value.i 1990⟩).check (fun _ _ => 0) (Value.i 1991) :=
  (c1_constraint_check_dispatch (fun _ _ => 0) _ "year" _).2.2.2 (Value.i 1991) rfl rfl

/-- C2: the leaf constraint predicates equal their reference definitions —
`Eq(v).check(v)` is `True` and `Eq(v).check(v')` is `False` for `v' != v`
(Python equality); `Range((a,b)).check(x)` is `a ≤ x ≤ b` for each ordered
value kind; `In(S).check(x)` is membership of `x` in `S` (and holds in
particular for every listed element); `Distance(c,r).check(p)` is
`haversine(c,p) ≤ r` for the (spec-modelled) haversine distance `hav`. -/
theorem c2_leaf_semantics (hav : Location → Location → Rat) :
    (∀ v : Value, (ConstraintType.relation ⟨.EQ, v⟩).check hav v = some true)
    ∧ (∀ v w : Value, w.pyEq v = false →
      (ConstraintType.relation ⟨.EQ, v⟩).check hav w = some false)
    ∧ (∀ a b x : Int, (ConstraintType.range (.i a b)).check hav (.i x)
      = some (decide (a ≤ x ∧ x ≤ b)))
    ∧ (∀ a b x : Rat, (ConstraintType.range (.d a b)).check hav (.d x)
      = some (decide (a ≤ x ∧ x ≤ b)))
    ∧ (∀ a b x : String, (ConstraintType.range (.s a b)).check hav (.s x)
      = some (decide (a ≤ x ∧ x ≤ b)))
    ∧ (∀ (S : List Value) (x : Value),
      ((ConstraintType.set .IN S).check hav x = some true ↔ ∃ y ∈ S, x.pyEq y = true)
      ∧ (x ∈ S → (ConstraintType.set .IN S).check hav x = some true))
    ∧ (∀ (c : Location) (r : Rat) (p : Location),
      (ConstraintType.distance c r).check hav (.l p) = some (decide (hav c p ≤ r))) := by
  refine ⟨?_, ?_, ?_, ?_, ?_, ?_, ?_⟩
  · intro v
    simp [ConstraintType.check, Relation.check, value_pyEq_refl]
  · intro v w h
    simp [ConstraintType.check, Relation.check, h]
  · intro a b x
    simp only [ConstraintType.check, pyChainLe, RangePair.firstValue, RangePair.secondValue,
      Value.pyLe, Value.toNum]
    by_cases hax : a ≤ x
    · have h1 : ((a : Rat) ≤ (x : Rat)) := by exact_mod_cast hax
      by_cases hxb : x ≤ b
      · have h2 : ((x : Rat) ≤ (b : Rat)) := by exact_mod_cast hxb
        simp [h1, h2, hax, hxb]
      · have h2 : ¬ ((x : Rat) ≤ (b : Rat)) := by exact_mod_cast hxb
        simp [h1, h2, hax, hxb]
    · have h1 : ¬ ((a : Rat) ≤ (x : Rat)) := by exact_mod_cast hax
      simp [h1, hax]
  · intro a b x
    simp only [ConstraintType.check, pyChainLe, RangePair.firstValue, RangePair.secondValue,
      Value.pyLe, Value.toNum]
    by_cases hax : a ≤ x
    · by_cases hxb : x ≤ b
      · simp [hax, hxb]
      · simp [hax, hxb]
    · simp [hax]
  · intro a b x
    simp only [ConstraintType.check, pyChainLe, RangePair.firstValue, RangePair.secondValue,
      Value.pyLe, Value.toNum]
    by_cases hax : a ≤ x
    · by_cases hxb : x ≤ b
      · simp [hax, hxb]
      · simp [hax, hxb]
    · simp [hax]
  · intro S x
    constructor
    · simp [ConstraintType.check, pyMem, List.any_eq_true]
    · intro hx
      simp [ConstraintType.check, pyMem_of_mem hx]
  · intro c r p
    simp [ConstraintType.check]

/-- C2, witness: the leaf semantics at concrete inputs — equality holds on
the same value and fails across `int`/`str`, and `2001` lies in the range
`(2000, 2005)`. -/
theorem c2_witness :
    (ConstraintType.relation ⟨.EQ, Value.i 1⟩).check (fun _ _ => 0) (Value.i 1) = some true
    ∧ (ConstraintType.relation ⟨.EQ, Value.i 1⟩).check (fun _ _ => 0) (Value.s "a") = some false
    ∧ (ConstraintType.range (.i 2000 2005)).check (fun _ _ => 0) (Value.i 2001) = some true :=
  ⟨(c2_leaf_semantics (fun _ _ => 0)).1 (Value.i 1),
   (c2_leaf_semantics (fun _ _ => 0)).2.1 (Value.i 1) (Value.s "a") rfl,
   ((c2_leaf_semantics (fun _ _ => 0)).2.2.1 2000 2005 2001).trans (by decide)⟩

theorem isValidList_eq_false_of_mem {cs : List ConstraintExpr} {m : DataModel}
    {e : ConstraintExpr} (hmem : e ∈ cs) (hval : e.is_valid m = false) :
    ConstraintExpr.isValidList cs m = false := by
  induction cs with
  | nil => cases hmem
  | cons c rest ih =>
    rcases List.mem_cons.mp hmem with heq | hmem'
    · subst heq
      simp [ConstraintExpr.isValidList, hval]
    · simp [ConstraintExpr.isValidList, ih hmem']

theorem checkValueTypes_ne_ok {values : List (String × Value)} :
    ∀ {schemas : List AttributeSchema},
    (∃ a ∈ schemas, ∃ v, dictGet values a.name = some v ∧ isinstanceTy v.ty a.type = false) →
    checkValueTypes values schemas ≠ .ok () := by
  intro schemas
  induction schemas with
  | nil => rintro ⟨a, ha, -⟩; cases ha
  | cons s rest ih =>
    rintro ⟨a, ha, v, hv, hbad⟩
    rcases List.mem_cons.mp ha with heq | ha'
    · subst heq
      simp [checkValueTypes, hv, hbad]
    · cases hd : dictGet values s.name with
      | none => simpa [checkValueTypes, hd] using ih ⟨a, ha', v, hv, hbad⟩
      | some v0 =>
        by_cases hin : isinstanceTy v0.ty s.type
        · by_cases hloc : v0.ty == Ty.location
          · simp [checkValueTypes, hd, hin, hloc]
          · simpa [checkValueTypes, hd, hin, hloc] using ih ⟨a, ha', v, hv, hbad⟩
        · simp [checkValueTypes, hd, hin]

/-- C4 (amended): the construction-time validations — `And`/`Or` with fewer
than two subexpressions fail, an empty `Query` fails, a `Query` whose
constraint references an attribute absent from its model or whose constraint
type is invalid for the attribute fails, a `Description` missing a required
attribute fails with `missingRequired`, one with an extra attribute fails,
and one with a value failing Python's `isinstance` against the schema type
fails (a `bool` value counts as an instance of an `int` schema, so only the
`isinstance`-mismatch — not every runtime-type mismatch — raises). -/
theorem c4_construction_validation :
    (∀ cs : List ConstraintExpr, cs.length < 2 → mkAnd cs = .error .andOrArity)
    ∧ (∀ cs : List ConstraintExpr, cs.length < 2 → mkOr cs = .error .andOrArity)
    ∧ (∀ model : Option DataModel, mkQuery [] model = .error .emptyQueryConstraints)
    ∧ (∀ (cs : List ConstraintExpr) (m : DataModel) (name : String) (ct : ConstraintType),
      ConstraintExpr.constraint name ct ∈ cs →
      (∀ attr, m.attributes_by_name name = some attr → ct.is_valid attr = false) →
      ∃ e, mkQuery cs (some m) = .error e)
    ∧ (∀ (values : List (String × Value)) (m : DataModel),
      (∃ a ∈ m.attribute_schemas, a.required = true ∧ ∀ kv ∈ values, kv.1 ≠ a.name) →
      Description.make values (some m) = .error .missingRequired)
    ∧ (∀ (values : List (String × Value)) (m : DataModel),
      (∃ kv ∈ values, ∀ a ∈ m.attribute_schemas, a.name ≠ kv.1) →
      ∃ e, Description.make values (some m) = .error e)
    ∧ (∀ (values : List (String × Value)) (m : DataModel),
      (∃ a ∈ m.attribute_schemas, ∃ v, dictGet values a.name = some v
        ∧ isinstanceTy v.ty a.type = false) →
      ∃ e, Description.make values (some m) = .error e) := by
  refine ⟨?_, ?_, ?_, ?_, ?_, ?_, ?_⟩
  · intro cs h
    simp [mkAnd, ConstraintExpr.check_validity, h]
  · intro cs h
    simp [mkOr, ConstraintExpr.check_validity, h]
  · intro model
    simp [mkQuery]
  · intro cs m name ct hmem hbad
    have hev : (ConstraintExpr.constraint name ct).is_valid m = false := by
      cases hfind : m.attributes_by_name name with
      | none => simp [ConstraintExpr.is_valid, hfind]
      | some attr => simp [ConstraintExpr.is_valid, hfind, hbad attr hfind]
    have hlen : ¬ cs.length < 1 := by
      have := List.length_pos.mpr (List.ne_nil_of_mem hmem)
      omega
    refine ⟨.queryInvalidForModel, ?_⟩
    simp [mkQuery, hlen, Query.is_valid, isValidList_eq_false_of_mem hmem hev]
  · intro values m ⟨a, ha, hreq, hnone⟩
    have hall : ((m.attribute_schemas.filter fun s => s.required).map fun s => s.name).all
        (fun nm => values.any fun kv => kv.1 == nm) = false := by
      rw [Bool.eq_false_iff]
      intro hall
      have hmem : a.name ∈ (m.attribute_schemas.filter fun s => s.required).map fun s => s.name := by
        exact List.mem_map_of_mem _ (List.mem_filter.mpr ⟨ha, by simp [hreq]⟩)
      have := List.all_eq_true.mp hall a.name hmem
      rcases List.any_eq_true.mp this with ⟨kv, hkv, hbeq⟩
      exact hnone kv hkv (by simpa using hbeq)
    simp [Description.make, check_consistency, hall]
  · intro values m ⟨kv, hkv, hextra⟩
    by_cases hreq : ((m.attribute_schemas.filter fun s => s.required).map fun s => s.name).all
        (fun nm => values.any fun kv' => kv'.1 == nm)
    · have hvals : values.all
          (fun kv' => ((m.attribute_schemas.map fun s => s.name).contains kv'.1)) = false := by
        rw [Bool.eq_false_iff]
        intro hall
        have hc := List.all_eq_true.mp hall kv hkv
        have : kv.1 ∈ m.attribute_schemas.map fun s => s.name := by
          simpa using hc
        rcases List.mem_map.mp this with ⟨a, ha, hname⟩
        exact hextra a ha hname
      refine ⟨.extraAttribute, ?_⟩
      simp only [Description.make, check_consistency]
      rw [hreq, hvals]
      simp
    · rw [Bool.not_eq_true] at hreq
      exact ⟨.missingRequired, by simp [Description.make, check_consistency, hreq]⟩
  · intro values m hbad
    have hne := checkValueTypes_ne_ok hbad
    by_cases hreq : ((m.attribute_schemas.filter fun s => s.required).map fun s => s.name).all
        (fun nm => values.any fun kv' => kv'.1 == nm)
    · by_cases hvals : values.all
          (fun kv' => ((m.attribute_schemas.map fun s => s.name).contains kv'.1))
      · cases hc : checkValueTypes values m.attribute_schemas with
        | ok u => cases u; exact absurd hc hne
        | error e =>
          refine ⟨e, ?_⟩
          simp only [Description.make, check_consistency]
          rw [hreq, hvals, hc]
          simp
      · rw [Bool.not_eq_true] at hvals
        refine ⟨.extraAttribute, ?_⟩
        simp only [Description.make, check_consistency]
        rw [hreq, hvals]
        simp
    · rw [Bool.not_eq_true] at hreq
      exact ⟨.missingRequired, by simp [Description.make, check_consistency, hreq]⟩

/-- C4, counterexample to the claim as stated: the value `True` has runtime
type `bool`, which differs from the schema type `int` of its attribute, yet
the `Description` constructs without error — the consistency check uses
`isinstance`, and Python's `bool` is a subclass of `int`. -/
theorem c4_counterexample :
    Description.make [("x", Value.b true)] (some ⟨"m", [⟨"x", Ty.int, true, none⟩], none⟩)
      = .ok ⟨[("x", Value.b true)], ⟨"m", [⟨"x", Ty.int, true, none⟩], none⟩⟩ := rfl

/-- C4, witness: a one-element `And` fails at construction. -/
theorem c4_witness :
    mkAnd [ConstraintExpr.constraint "a" (.relation ⟨.EQ, Value.i 0⟩)] = .error .andOrArity :=
  c4_construction_validation.1 _ (by decide)

theorem dictSet_dictSet {β : Type} (l : List (String × β)) (k : String) (v w : β) :
    dictSet (dictSet l k v) k w = dictSet l k w := by
  induction l with
  | nil => simp [dictSet]
  | cons kv rest ih =>
    by_cases h : kv.1 = k
    · simp [dictSet, h]
    · simp [dictSet, h, ih]

theorem dictLookup_nil {β : Type} (k : String) : dictLookup ([] : List (String × β)) k = none :=
  rfl

theorem dictLookup_cons {β : Type} (kv : String × β) (rest : List (String × β)) (k : String) :
    dictLookup (kv :: rest) k = if kv.1 = k then some kv.2 else dictLookup rest k := by
  by_cases h : kv.1 = k
  · simp [dictLookup, List.find?_cons_of_pos, h]
  · have hb : (kv.1 == k) = false := by simp [h]
    simp [dictLookup, List.find?_cons_of_neg, hb, h]

theorem dictLookup_serviceAppend_self (l : List (String × List Description)) (k : String)
    (d : Description) :
    dictLookup (serviceAppend l k d) k = some ((dictLookup l k).getD [] ++ [d]) := by
  induction l with
  | nil => simp [serviceAppend, dictLookup_cons, dictLookup_nil]
  | cons kv rest ih =>
    by_cases h : kv.1 = k
    · simp [serviceAppend, dictLookup_cons, h]
    · simp [serviceAppend, dictLookup_cons, h, ih]

theorem dictLookup_serviceAppend_other (l : List (String × List Description)) (k k' : String)
    (d : Description) (hne : k' ≠ k) :
    dictLookup (serviceAppend l k d) k' = dictLookup l k' := by
  induction l with
  | nil => simp [serviceAppend, dictLookup_cons, dictLookup_nil, Ne.symm hne]
  | cons kv rest ih =>
    by_cases h : kv.1 = k
    · simp [serviceAppend, dictLookup_cons, h, Ne.symm hne]
    · simp [serviceAppend, dictLookup_cons, h, ih]

theorem dictLookup_dictAppendItem_self (l : List (String × List MailboxItem)) (k : String)
    (x : MailboxItem) (hc : dictContains l k = true) :
    dictLookup (dictAppendItem l k x) k = (dictLookup l k).map fun q => q ++ [x] := by
  induction l with
  | nil => simp [dictContains] at hc
  | cons kv rest ih =>
    by_cases h : kv.1 = k
    · simp [dictAppendItem, dictLookup_cons, h]
    · have hc' : dictContains rest k = true := by
        simpa [dictContains, List.any_cons, h] using hc
      simp [dictAppendItem, dictLookup_cons, h, ih hc']

theorem dictLookup_dictAppendItem_other (l : List (String × List MailboxItem)) (k k' : String)
    (x : MailboxItem) (hne : k' ≠ k) :
    dictLookup (dictAppendItem l k x) k' = dictLookup l k' := by
  induction l with
  | nil => simp [dictAppendItem]
  | cons kv rest ih =>
    by_cases h : kv.1 = k
    · simp [dictAppendItem, dictLookup_cons, h, Ne.symm hne]
    · simp [dictAppendItem, dictLookup_cons, h, ih]

/-- C6 (amended): `register_agent` is an idempotent overwrite — registering
the same description twice equals registering it once; `register_service` is
a plain append — descriptions accumulate in registration order under their
agent id (duplicates included), other keys and the other registries are
untouched. -/
theorem c6_register_semantics :
    (∀ (st : LocalNode) (pk : String) (d : Description),
      (st.register_agent pk d).register_agent pk d = st.register_agent pk d)
    ∧ (∀ (st : LocalNode) (pk : String) (d : Description),
      dictLookup (st.register_service pk d).services pk
        = some ((dictLookup st.services pk).getD [] ++ [d]))
    ∧ (∀ (st : LocalNode) (pk k : String) (d : Description), k ≠ pk →
      dictLookup (st.register_service pk d).services k = dictLookup st.services k)
    ∧ (∀ (st : LocalNode) (pk : String) (d : Description),
      (st.register_service pk d).agents = st.agents
        ∧ (st.register_service pk d).queues = st.queues) := by
  refine ⟨?_, ?_, ?_, ?_⟩
  · intro st pk d
    simp [LocalNode.register_agent, dictSet_dictSet]
  · intro st pk d
    simpa [LocalNode.register_service] using dictLookup_serviceAppend_self st.services pk d
  · intro st pk k d hne
    simpa [LocalNode.register_service] using dictLookup_serviceAppend_other st.services pk k d hne
  · intro st pk d
    exact ⟨rfl, rfl⟩

/-- C6, counterexample to the claim as stated: registering the same service
description twice is not equivalent to registering it once — the service
directory holds the description twice. -/
theorem c6_counterexample :
    ((LocalNode.init.register_service "k"
        ⟨[("a", Value.i 1)], ⟨"", [⟨"a", Ty.int, true, none⟩], none⟩⟩).register_service "k"
        ⟨[("a", Value.i 1)], ⟨"", [⟨"a", Ty.int, true, none⟩], none⟩⟩).services
      ≠ (LocalNode.init.register_service "k"
        ⟨[("a", Value.i 1)], ⟨"", [⟨"a", Ty.int, true, none⟩], none⟩⟩).services := by
  decide

/-- C6, witness: one `register_service` call appends its description at the
end of the agent's accumulated list. -/
theorem c6_witness :
    dictLookup ((⟨[], [("k", [⟨[("a", Value.i 1)], ⟨"", [], none⟩⟩])], []⟩ :
        LocalNode).register_service "k" ⟨[("b", Value.i 2)], ⟨"", [], none⟩⟩).services "k"
      = some [⟨[("a", Value.i 1)], ⟨"", [], none⟩⟩, ⟨[("b", Value.i 2)], ⟨"", [], none⟩⟩] :=
  (c6_register_semantics.2.1 _ "k" _).trans rfl

/-- C7 (amended): relaying an `AgentMessage` whose destination has no
mailbox raises a `KeyError` out of `_send_agent_message`, which propagates
out of `_process_messages` and terminates the loop (the remaining intake
items are not processed); a successful relay appends the stamped message to
exactly the destination's mailbox and leaves the registries and every other
mailbox unchanged. -/
theorem c7_relay_semantics :
    (∀ (st : LocalNode) (origin : String) (msg : AgentMessage),
      dictContains st.queues msg.destination = false →
        st.send_agent_message origin msg = .error ()
        ∧ ∀ rest, st.process_messages ((origin, msg) :: rest) = .error ())
    ∧ (∀ (st st' : LocalNode) (origin : String) (msg : AgentMessage),
      st.send_agent_message origin msg = .ok st' →
        st'.agents = st.agents ∧ st'.services = st.services
        ∧ (∀ k, k ≠ msg.destination → dictLookup st'.queues k = dictLookup st.queues k)
        ∧ dictLookup st'.queues msg.destination
          = (dictLookup st.queues msg.destination).map
              (fun q => q ++ [.agentMessage ⟨msg.msg_id, origin, msg.dialogue_id, msg.payload⟩])) := by
  constructor
  · intro st origin msg h
    have hsend : st.send_agent_message origin msg = .error () := by
      simp [LocalNode.send_agent_message, h]
    exact ⟨hsend, fun rest => by simp [LocalNode.process_messages, hsend]⟩
  · intro st st' origin msg h
    by_cases hc : dictContains st.queues msg.destination
    · simp only [LocalNode.send_agent_message, hc, if_true, Except.ok.injEq] at h
      subst h
      refine ⟨rfl, rfl, ?_, ?_⟩
      · intro k hk
        exact dictLookup_dictAppendItem_other st.queues msg.destination k _ hk
      · exact dictLookup_dictAppendItem_self st.queues msg.destination _ hc
    · rw [Bool.not_eq_true] at hc
      simp [LocalNode.send_agent_message, hc] at h

/-- C7, counterexample to the claim as stated: with only agent `a` connected,
relaying a message addressed to `b` makes the broker's processing step
return the `KeyError` — the relay does raise and does terminate the
processing loop, rather than silently dropping the message. -/
theorem c7_counterexample :
    LocalNode.process_messages ⟨[], [], [("a", [])]⟩
      [("a", ⟨0, 0, "b", .content []⟩)] = .error () := rfl

/-- C7, witness: on an empty broker the relay of a message to `b` errors and
the loop terminates with that error. -/
theorem c7_witness :
    LocalNode.send_agent_message ⟨[], [], []⟩ "a" ⟨0, 0, "b", .content []⟩ = .error ()
    ∧ LocalNode.process_messages ⟨[], [], []⟩ [("a", ⟨0, 0, "b", .content []⟩)] = .error () :=
  ⟨(c7_relay_semantics.1 ⟨[], [], []⟩ "a" ⟨0, 0, "b", .content []⟩ rfl).1,
   (c7_relay_semantics.1 ⟨[], [], []⟩ "a" ⟨0, 0, "b", .content []⟩ rfl).2 []⟩

/-- C8: `connect` is idempotent for both proxies — the network proxy returns
`True` immediately with no handshake sends and unchanged state while
connected over a transport that is not closing, re-runs the handshake (at
least one send) when the transport has been closed, and the local proxy
returns `True` immediately without touching the broker while connected. -/
theorem c8_connect_idempotent :
    (∀ (st : OEFNetworkProxyState) (pk : String) (env : HandshakeEnv) (t : Transport),
      st.connection = some t → t.is_closing = false →
      OEFNetworkProxy.connect st pk env = (true, st, []))
    ∧ (∀ (st : OEFNetworkProxyState) (pk : String) (env : HandshakeEnv) (t : Transport),
      st.connection = some t → t.is_closing = true →
      OEFNetworkProxy.connect st pk env = runHandshake pk env
        ∧ (OEFNetworkProxy.connect st pk env).2.2 ≠ [])
    ∧ (∀ (st : OEFLocalProxyState) (node : LocalNode),
      st.connection.isSome = true →
      OEFLocalProxy.connect st node = (true, st, node)) := by
  refine ⟨?_, ?_, ?_⟩
  · intro st pk env t h hcl
    obtain ⟨conn⟩ := st
    simp only at h
    subst h
    simp [OEFNetworkProxy.connect, hcl]
  · intro st pk env t h hcl
    obtain ⟨conn⟩ := st
    simp only at h
    subst h
    refine ⟨by simp [OEFNetworkProxy.connect, hcl], ?_⟩
    simp only [OEFNetworkProxy.connect, hcl]
    cases hp : env.phrase <;> simp [runHandshake, hp]
  · intro st node h
    obtain ⟨pk0, conn⟩ := st
    cases conn with
    | none => simp at h
    | some u => simp [OEFLocalProxy.connect]

/-- C8, witness: an already-connected network proxy (transport open) returns
`True` with no sends, and an already-connected local proxy returns `True`
with the broker untouched. -/
theorem c8_witness :
    OEFNetworkProxy.connect ⟨some ⟨false⟩⟩ "pk" ⟨⟨false⟩, none, true⟩
        = (true, ⟨some ⟨false⟩⟩, [])
    ∧ OEFLocalProxy.connect ⟨"pk", some ()⟩ LocalNode.init
        = (true, ⟨"pk", some ()⟩, LocalNode.init) :=
  ⟨c8_connect_idempotent.1 ⟨some ⟨false⟩⟩ "pk" ⟨⟨false⟩, none, true⟩ ⟨false⟩ rfl rfl,
   c8_connect_idempotent.2.2 ⟨"pk", some ()⟩ LocalNode.init rfl⟩

/-- C9: inbound dialogue dispatch — on a registered `(origin, dialogue_id)`
key every one of the five handlers delegates to that session; on an
unregistered key, `on_message` and `on_cfp` fall back to the new-session
hooks while `on_propose`, `on_accept` and `on_decline` surface the lookup
failure. -/
theorem c9_dialogue_dispatch :
    (∀ (st : DialogueAgentState) (origin : String) (dialogue_id : Int) (session : Nat),
      st.getDialogue (origin, dialogue_id) = some session →
        DialogueAgent.on_message st origin dialogue_id = .delegated session
        ∧ DialogueAgent.on_cfp st origin dialogue_id = .delegated session
        ∧ DialogueAgent.on_propose st origin dialogue_id = .delegated session
        ∧ DialogueAgent.on_accept st origin dialogue_id = .delegated session
        ∧ DialogueAgent.on_decline st origin dialogue_id = .delegated session)
    ∧ (∀ (st : DialogueAgentState) (origin : String) (dialogue_id : Int),
      st.getDialogue (origin, dialogue_id) = none →
        DialogueAgent.on_message st origin dialogue_id = .newSessionHook
        ∧ DialogueAgent.on_cfp st origin dialogue_id = .newSessionHook
        ∧ DialogueAgent.on_propose st origin dialogue_id = .keyError
        ∧ DialogueAgent.on_accept st origin dialogue_id = .keyError
        ∧ DialogueAgent.on_decline st origin dialogue_id = .keyError) := by
  constructor
  · intro st origin did session h
    exact ⟨by simp [DialogueAgent.on_message, h], by simp [DialogueAgent.on_cfp, h],
      by simp [DialogueAgent.on_propose, h], by simp [DialogueAgent.on_accept, h],
      by simp [DialogueAgent.on_decline, h]⟩
  · intro st origin did h
    exact ⟨by simp [DialogueAgent.on_message, h], by simp [DialogueAgent.on_cfp, h],
      by simp [DialogueAgent.on_propose, h], by simp [DialogueAgent.on_accept, h],
      by simp [DialogueAgent.on_decline, h]⟩

/-- C9, witness: with the key `("p", 0)` registered as session `5`, all five
handlers delegate to it; on the fresh key `("q", 1)` the message and CFP
handlers fall back while propose/accept/decline fail the lookup. -/
theorem c9_witness :
    (DialogueAgent.on_message ⟨[(("p", 0), 5)]⟩ "p" 0 = .delegated 5
      ∧ DialogueAgent.on_cfp ⟨[(("p", 0), 5)]⟩ "p" 0 = .delegated 5
      ∧ DialogueAgent.on_propose ⟨[(("p", 0), 5)]⟩ "p" 0 = .delegated 5
      ∧ DialogueAgent.on_accept ⟨[(("p", 0), 5)]⟩ "p" 0 = .delegated 5
      ∧ DialogueAgent.on_decline ⟨[(("p", 0), 5)]⟩ "p" 0 = .delegated 5)
    ∧ (DialogueAgent.on_message ⟨[(("p", 0), 5)]⟩ "q" 1 = .newSessionHook
      ∧ DialogueAgent.on_cfp ⟨[(("p", 0), 5)]⟩ "q" 1 = .newSessionHook
      ∧ DialogueAgent.on_propose ⟨[(("p", 0), 5)]⟩ "q" 1 = .keyError
      ∧ DialogueAgent.on_accept ⟨[(("p", 0), 5)]⟩ "q" 1 = .keyError
      ∧ DialogueAgent.on_decline ⟨[(("p", 0), 5)]⟩ "q" 1 = .keyError) :=
  ⟨c9_dialogue_dispatch.1 ⟨[(("p", 0), 5)]⟩ "p" 0 5 rfl,
   c9_dialogue_dispatch.2 ⟨[(("p", 0), 5)]⟩ "q" 1 rfl⟩

theorem mem_dictRemove {β : Type} {l : List (String × β)} {k : String} {kv : String × β}
    (h : kv ∈ dictRemove l k) : kv ∈ l := by
  induction l with
  | nil => simp [dictRemove] at h
  | cons hd rest ih =>
    by_cases hk : hd.1 = k
    · rw [show dictRemove (hd :: rest) k = rest by simp [dictRemove, hk]] at h
      exact List.mem_cons_of_mem _ h
    · rw [show dictRemove (hd :: rest) k = hd :: dictRemove rest k by simp [dictRemove, hk]] at h
      rcases List.mem_cons.mp h with he | hm
      · exact he ▸ List.mem_cons_self _ _
      · exact List.mem_cons_of_mem _ (ih hm)

theorem mem_dictSet {β : Type} {l : List (String × β)} {k : String} {v : β} {kv : String × β}
    (h : kv ∈ dictSet l k v) : kv ∈ l ∨ kv = (k, v) := by
  induction l with
  | nil =>
    simp [dictSet] at h
    exact Or.inr h
  | cons hd rest ih =>
    by_cases hk : hd.1 = k
    · rw [show dictSet (hd :: rest) k v = (k, v) :: rest by simp [dictSet, hk]] at h
      rcases List.mem_cons.mp h with he | hm
      · exact Or.inr he
      · exact Or.inl (List.mem_cons_of_mem _ hm)
    · rw [show dictSet (hd :: rest) k v = hd :: dictSet rest k v by simp [dictSet, hk]] at h
      rcases List.mem_cons.mp h with he | hm
      · exact Or.inl (he ▸ List.mem_cons_self _ _)
      · rcases ih hm with h1 | h2
        · exact Or.inl (List.mem_cons_of_mem _ h1)
        · exact Or.inr h2

theorem serviceAppend_nonempty {l : List (String × List Description)} {k : String}
    {d : Description} (hinv : ∀ kv ∈ l, kv.2 ≠ []) :
    ∀ kv ∈ serviceAppend l k d, kv.2 ≠ [] := by
  induction l with
  | nil =>
    intro kv h
    simp [serviceAppend] at h
    subst h
    simp
  | cons hd rest ih =>
    intro kv h
    by_cases hk : hd.1 = k
    · rw [show serviceAppend (hd :: rest) k d = (hd.1, hd.2 ++ [d]) :: rest by
        simp [serviceAppend, hk]] at h
      rcases List.mem_cons.mp h with he | hm
      · subst he; simp
      · exact hinv kv (List.mem_cons_of_mem _ hm)
    · rw [show serviceAppend (hd :: rest) k d = hd :: serviceAppend rest k d by
        simp [serviceAppend, hk]] at h
      rcases List.mem_cons.mp h with he | hm
      · exact he ▸ hinv hd (List.mem_cons_self _ _)
      · exact ih (fun kv' hkv' => hinv kv' (List.mem_cons_of_mem _ hkv')) kv hm

theorem dictContains_false_lookup {β : Type} {l : List (String × β)} {k : String}
    (h : dictContains l k = false) (m : List (String × β)) :
    dictLookup (l ++ m) k = dictLookup m k := by
  induction l with
  | nil => simp
  | cons hd rest ih =>
    have h1 : hd.1 ≠ k := by
      intro he
      simp [dictContains, List.any_cons, he] at h
    have h2 : dictContains rest k = false := by
      simpa [dictContains, List.any_cons, h1] using h
    rw [List.cons_append, dictLookup_cons]
    simp [h1, ih h2]

theorem unregister_service_invariant {st : LocalNode} {pk : String} {d : Description}
    {st' : LocalNode} (hinv : ∀ kv ∈ st.services, kv.2 ≠ [])
    (h : st.unregister_service pk d = (true, st')) :
    ∀ kv ∈ st'.services, kv.2 ≠ [] := by
  by_cases hc : dictContains st.services pk
  · simp only [LocalNode.unregister_service, hc, if_true] at h
    cases hr : pyRemove ((dictLookup st.services pk).getD []) d with
    | none =>
      rw [hr] at h
      simp at h
    | some ds' =>
      rw [hr] at h
      by_cases he : ds'.isEmpty
      · simp only [he, if_true, Prod.mk.injEq, true_and] at h
        subst h
        intro kv hkv
        exact hinv kv (mem_dictRemove hkv)
      · rw [Bool.not_eq_true] at he
        simp only [he, Bool.false_eq_true, if_false, Prod.mk.injEq, true_and] at h
        subst h
        intro kv hkv
        rcases mem_dictSet hkv with hm | heq
        · exact hinv kv hm
        · rw [heq]
          intro hnil
          simp only at hnil
          rw [hnil] at he
          simp at he
  · rw [Bool.not_eq_true] at hc
    have hl : dictLookup (st.services ++ [(pk, [])]) pk = some [] := by
      rw [dictContains_false_lookup hc]
      simp [dictLookup_cons]
    simp only [LocalNode.unregister_service, hc, Bool.false_eq_true, if_false, hl,
      Option.getD_some, pyRemove] at h
    simp at h

theorem applyServiceOps_invariant :
    ∀ (ops : List ServiceOp) (st st' : LocalNode),
    (∀ kv ∈ st.services, kv.2 ≠ []) → applyServiceOps st ops = some st' →
    ∀ kv ∈ st'.services, kv.2 ≠ [] := by
  intro ops
  induction ops with
  | nil =>
    intro st st' hinv h
    simp [applyServiceOps] at h
    exact h ▸ hinv
  | cons op rest ih =>
    intro st st' hinv h
    cases op with
    | reg pk d =>
      simp only [applyServiceOps] at h
      exact ih _ _ (by simpa [LocalNode.register_service] using serviceAppend_nonempty hinv) h
    | unreg pk d =>
      simp only [applyServiceOps] at h
      rcases hu : st.unregister_service pk d with ⟨flag, st1⟩
      rw [hu] at h
      cases flag with
      | true => exact ih _ _ (unregister_service_invariant hinv hu) h
      | false => simp at h

/-- C10: after any sequence of `register_service` and successful
`unregister_service` calls starting from a fresh node, every agent id bound
in the service directory maps to a non-empty description list —
`unregister_service` pops the key when its last description is removed. -/
theorem c10_service_directory_invariant (ops : List ServiceOp) (st' : LocalNode)
    (h : applyServiceOps LocalNode.init ops = some st') :
    ∀ kv ∈ st'.services, kv.2 ≠ [] :=
  applyServiceOps_invariant ops LocalNode.init st' (by simp [LocalNode.init]) h

/-- C10, witness: register the same description twice and unregister it
once; the key remains bound to the one remaining description, which is a
non-empty list. -/
theorem c10_witness :
    ([⟨[("a", Value.i 1)], ⟨"", [], none⟩⟩] : List Description) ≠ [] :=
  c10_service_directory_invariant
    [.reg "k" ⟨[("a", Value.i 1)], ⟨"", [], none⟩⟩,
     .reg "k" ⟨[("a", Value.i 1)], ⟨"", [], none⟩⟩,
     .unreg "k" ⟨[("a", Value.i 1)], ⟨"", [], none⟩⟩]
    ⟨[], [("k", [⟨[("a", Value.i 1)], ⟨"", [], none⟩⟩])], []⟩ rfl
    ("k", [⟨[("a", Value.i 1)], ⟨"", [], none⟩⟩]) (by simp)

theorem matchingAgents_none_iff (hav : Location → Location → Rat) (q : Query) :
    ∀ l : List (String × Description),
    (matchingAgents hav q l = none ↔ ∃ a d, (a, d) ∈ l ∧ q.check hav d = none) := by
  intro l
  induction l with
  | nil => simp [matchingAgents]
  | cons kd rest ih =>
    obtain ⟨k, d0⟩ := kd
    cases hc : q.check hav d0 with
    | none =>
      simp only [matchingAgents, hc]
      constructor
      · intro _
        exact ⟨k, d0, List.mem_cons_self _ _, hc⟩
      · intro _
        trivial
    | some b =>
      cases b with
      | true =>
        simp only [matchingAgents, hc]
        constructor
        · intro h
          cases hrec : matchingAgents hav q rest with
          | none =>
            rcases (ih).mp hrec with ⟨a, d, hm, hn⟩
            exact ⟨a, d, List.mem_cons_of_mem _ hm, hn⟩
          | some r => rw [hrec] at h; simp at h
        · rintro ⟨a, d, hm, hn⟩
          rcases List.mem_cons.mp hm with he | hm'
          · injection he with h1 h2
            rw [h2] at hn
            rw [hn] at hc
            cases hc
          · rw [ih.mpr ⟨a, d, hm', hn⟩]
            trivial
      | false =>
        simp only [matchingAgents, hc]
        rw [ih]
        constructor
        · rintro ⟨a, d, hm, hn⟩
          exact ⟨a, d, List.mem_cons_of_mem _ hm, hn⟩
        · rintro ⟨a, d, hm, hn⟩
          rcases List.mem_cons.mp hm with he | hm'
          · injection he with h1 h2
            rw [h2] at hn
            rw [hn] at hc
            cases hc
          · exact ⟨a, d, hm', hn⟩

theorem matchingAgents_some_mem (hav : Location → Location → Rat) (q : Query) :
    ∀ (l : List (String × Description)) (r : List String),
    matchingAgents hav q l = some r →
    ∀ a, a ∈ r ↔ ∃ d, (a, d) ∈ l ∧ q.check hav d = some true := by
  intro l
  induction l with
  | nil =>
    intro r h a
    simp only [matchingAgents, Option.some.injEq] at h
    subst h
    simp
  | cons kd rest ih =>
    obtain ⟨k, d0⟩ := kd
    intro r h a
    cases hc : q.check hav d0 with
    | none => simp [matchingAgents, hc] at h
    | some b =>
      cases b with
      | true =>
        simp only [matchingAgents, hc] at h
        cases hrec : matchingAgents hav q rest with
        | none => rw [hrec] at h; simp at h
        | some r' =>
          rw [hrec] at h
          simp only [Option.map_some', Option.some.injEq] at h
          subst h
          rw [List.mem_cons, ih r' hrec a]
          constructor
          · rintro (rfl | ⟨d, hm, ht⟩)
            · exact ⟨d0, List.mem_cons_self _ _, hc⟩
            · exact ⟨d, List.mem_cons_of_mem _ hm, ht⟩
          · rintro ⟨d, hm, ht⟩
            rcases List.mem_cons.mp hm with he | hm'
            · injection he with h1 h2
              exact Or.inl h1
            · exact Or.inr ⟨d, hm', ht⟩
      | false =>
        simp only [matchingAgents, hc] at h
        rw [ih r h a]
        constructor
        · rintro ⟨d, hm, ht⟩
          exact ⟨d, List.mem_cons_of_mem _ hm, ht⟩
        · rintro ⟨d, hm, ht⟩
          rcases List.mem_cons.mp hm with he | hm'
          · injection he with h1 h2
            rw [h2] at ht
            rw [ht] at hc
            cases hc
          · exact ⟨d, hm', ht⟩

theorem matchingInList_none_iff (hav : Location → Location → Rat) (q : Query) (k : String) :
    ∀ ds : List Description,
    (matchingInList hav q k ds = none ↔ ∃ d ∈ ds, q.check hav d = none) := by
  intro ds
  induction ds with
  | nil => simp [matchingInList]
  | cons d0 rest ih =>
    cases hc : q.check hav d0 with
    | none =>
      simp only [matchingInList, hc]
      constructor
      · intro _
        exact ⟨d0, List.mem_cons_self _ _, hc⟩
      · intro _
        trivial
    | some b =>
      cases b with
      | true =>
        simp only [matchingInList, hc]
        constructor
        · intro h
          cases hrec : matchingInList hav q k rest with
          | none =>
            rcases ih.mp hrec with ⟨d, hm, hn⟩
            exact ⟨d, List.mem_cons_of_mem _ hm, hn⟩
          | some r => rw [hrec] at h; simp at h
        · rintro ⟨d, hm, hn⟩
          rcases List.mem_cons.mp hm with he | hm'
          · rw [he] at hn
            rw [hn] at hc
            cases hc
          · rw [ih.mpr ⟨d, hm', hn⟩]
            trivial
      | false =>
        simp only [matchingInList, hc]
        rw [ih]
        constructor
        · rintro ⟨d, hm, hn⟩
          exact ⟨d, List.mem_cons_of_mem _ hm, hn⟩
        · rintro ⟨d, hm, hn⟩
          rcases List.mem_cons.mp hm with he | hm'
          · rw [he] at hn
            rw [hn] at hc
            cases hc
          · exact ⟨d, hm', hn⟩

theorem matchingInList_some_mem (hav : Location → Location → Rat) (q : Query) (k : String) :
    ∀ (ds : List Description) (r : List String),
    matchingInList hav q k ds = some r →
    ∀ x, x ∈ r ↔ (x = k ∧ ∃ d ∈ ds, q.check hav d = some true) := by
  intro ds
  induction ds with
  | nil =>
    intro r h x
    simp only [matchingInList, Option.some.injEq] at h
    subst h
    simp
  | cons d0 rest ih =>
    intro r h x
    cases hc : q.check hav d0 with
    | none => simp [matchingInList, hc] at h
    | some b =>
      cases b with
      | true =>
        simp only [matchingInList, hc] at h
        cases hrec : matchingInList hav q k rest with
        | none => rw [hrec] at h; simp at h
        | some r' =>
          rw [hrec] at h
          simp only [Option.map_some', Option.some.injEq] at h
          subst h
          rw [List.mem_cons, ih r' hrec x]
          constructor
          · rintro (rfl | ⟨hxk, d, hm, ht⟩)
            · exact ⟨rfl, d0, List.mem_cons_self _ _, hc⟩
            · exact ⟨hxk, d, List.mem_cons_of_mem _ hm, ht⟩
          · rintro ⟨hxk, d, hm, ht⟩
            exact Or.inl hxk
      | false =>
        simp only [matchingInList, hc] at h
        rw [ih r h x]
        constructor
        · rintro ⟨hxk, d, hm, ht⟩
          exact ⟨hxk, d, List.mem_cons_of_mem _ hm, ht⟩
        · rintro ⟨hxk, d, hm, ht⟩
          rcases List.mem_cons.mp hm with he | hm'
          · rw [he] at ht
            rw [ht] at hc
            cases hc
          · exact ⟨hxk, d, hm', ht⟩

theorem matchingServices_none_iff (hav : Location → Location → Rat) (q : Query) :
    ∀ l : List (String × List Description),
    (matchingServices hav q l = none ↔
      ∃ a d, (∃ ds, (a, ds) ∈ l ∧ d ∈ ds) ∧ q.check hav d = none) := by
  intro l
  induction l with
  | nil => simp [matchingServices]
  | cons kds rest ih =>
    obtain ⟨k, ds⟩ := kds
    cases hin : matchingInList hav q k ds with
    | none =>
      simp only [matchingServices, hin]
      constructor
      · intro _
        rcases (matchingInList_none_iff hav q k ds).mp hin with ⟨d, hm, hn⟩
        exact ⟨k, d, ⟨ds, List.mem_cons_self _ _, hm⟩, hn⟩
      · intro _
        trivial
    | some xs =>
      cases hrec : matchingServices hav q rest with
      | none =>
        simp only [matchingServices, hin, hrec]
        constructor
        · intro _
          rcases ih.mp hrec with ⟨a, d, ⟨ds', hm, hdm⟩, hn⟩
          exact ⟨a, d, ⟨ds', List.mem_cons_of_mem _ hm, hdm⟩, hn⟩
        · intro _
          trivial
      | some ys =>
        simp only [matchingServices, hin, hrec]
        constructor
        · intro h
          cases h
        · rintro ⟨a, d, ⟨ds', hm, hdm⟩, hn⟩
          rcases List.mem_cons.mp hm with he | hm'
          · injection he with h1 h2
            rw [h2] at hdm
            have : matchingInList hav q k ds = none :=
              (matchingInList_none_iff hav q k ds).mpr ⟨d, hdm, hn⟩
            rw [this] at hin
            cases hin
          · have : matchingServices hav q rest = none :=
              ih.mpr ⟨a, d, ⟨ds', hm', hdm⟩, hn⟩
            rw [this] at hrec
            cases hrec

theorem matchingServices_some_mem (hav : Location → Location → Rat) (q : Query) :
    ∀ (l : List (String × List Description)) (r : List String),
    matchingServices hav q l = some r →
    ∀ a, a ∈ r ↔ ∃ ds, (a, ds) ∈ l ∧ ∃ d ∈ ds, q.check hav d = some true := by
  intro l
  induction l with
  | nil =>
    intro r h a
    simp only [matchingServices, Option.some.injEq] at h
    subst h
    simp
  | cons kds rest ih =>
    obtain ⟨k, ds⟩ := kds
    intro r h a
    cases hin : matchingInList hav q k ds with
    | none => simp [matchingServices, hin] at h
    | some xs =>
      cases hrec : matchingServices hav q rest with
      | none => simp [matchingServices, hin, hrec] at h
      | some ys =>
        simp only [matchingServices, hin, hrec, Option.some.injEq] at h
        subst h
        rw [List.mem_append, matchingInList_some_mem hav q k ds xs hin a, ih ys hrec a]
        constructor
        · rintro (⟨rfl, d, hm, ht⟩ | ⟨ds', hm, hd⟩)
          · exact ⟨ds, List.mem_cons_self _ _, d, hm, ht⟩
          · exact ⟨ds', List.mem_cons_of_mem _ hm, hd⟩
        · rintro ⟨ds', hm, d, hdm, ht⟩
          rcases List.mem_cons.mp hm with he | hm'
          · injection he with h1 h2
            subst h1
            subst h2
            exact Or.inl ⟨rfl, d, hdm, ht⟩
          · exact Or.inr ⟨ds', hm', d, hdm, ht⟩

theorem mem_sortedSet {l : List String} {a : String} : a ∈ sortedSet l ↔ a ∈ l := by
  unfold sortedSet
  rw [(List.perm_insertionSort _ _).mem_iff]
  exact List.mem_dedup

theorem sorted_sortedSet (l : List String) :
    List.Sorted (fun a b : String => a ≤ b) (sortedSet l) :=
  List.sorted_insertionSort _ _

theorem nodup_sortedSet (l : List String) : (sortedSet l).Nodup :=
  (List.perm_insertionSort _ _).nodup_iff.mpr (List.nodup_dedup l)

theorem sortedSet_eq_of_mem_iff {l l' : List String} (h : ∀ a, a ∈ l ↔ a ∈ l') :
    sortedSet l = sortedSet l' := by
  have hperm : (sortedSet l).Perm (sortedSet l') := by
    have hd : (l.dedup).Perm (l'.dedup) := by
      refine (List.perm_ext_iff_of_nodup (List.nodup_dedup l) (List.nodup_dedup l')).mpr ?_
      intro a
      rw [List.mem_dedup, List.mem_dedup]
      exact h a
    exact ((List.perm_insertionSort _ _).trans hd).trans (List.perm_insertionSort _ _).symm
  exact List.eq_of_perm_of_sorted hperm (sorted_sortedSet l) (sorted_sortedSet l')

/-- C5: `search_agents` and `search_services` return, tagged with the
request's `search_id`, exactly the identifiers whose registered
description(s) satisfy `query.check`, deduplicated and sorted ascending; and
the result depends only on which (identifier, description) pairs are
registered, not on registration order. -/
theorem c5_search_semantics (hav : Location → Location → Rat) (st : LocalNode)
    (search_id : Int) (q : Query) :
    (∀ item, st.search_agents hav search_id q = some item →
      ∃ ids, item = .searchResult search_id ids
        ∧ List.Sorted (fun a b : String => a ≤ b) ids ∧ ids.Nodup
        ∧ ∀ a, a ∈ ids ↔ ∃ d, (a, d) ∈ st.agents ∧ q.check hav d = some true)
    ∧ (∀ item, st.search_services hav search_id q = some item →
      ∃ ids, item = .searchResult search_id ids
        ∧ List.Sorted (fun a b : String => a ≤ b) ids ∧ ids.Nodup
        ∧ ∀ a, a ∈ ids ↔ ∃ ds, (a, ds) ∈ st.services ∧ ∃ d ∈ ds, q.check hav d = some true)
    ∧ (∀ st' : LocalNode, (∀ a d, (a, d) ∈ st.agents ↔ (a, d) ∈ st'.agents) →
      st.search_agents hav search_id q = st'.search_agents hav search_id q)
    ∧ (∀ st' : LocalNode,
      (∀ a (d : Description),
        (∃ ds, (a, ds) ∈ st.services ∧ d ∈ ds) ↔ (∃ ds, (a, ds) ∈ st'.services ∧ d ∈ ds)) →
      st.search_services hav search_id q = st'.search_services hav search_id q) := by
  refine ⟨?_, ?_, ?_, ?_⟩
  · intro item h
    cases hm : matchingAgents hav q st.agents with
    | none => simp [LocalNode.search_agents, hm] at h
    | some r =>
      simp only [LocalNode.search_agents, hm, Option.map_some', Option.some.injEq] at h
      refine ⟨sortedSet r, h.symm, sorted_sortedSet r, nodup_sortedSet r, ?_⟩
      intro a
      rw [mem_sortedSet]
      exact matchingAgents_some_mem hav q st.agents r hm a
  · intro item h
    cases hm : matchingServices hav q st.services with
    | none => simp [LocalNode.search_services, hm] at h
    | some r =>
      simp only [LocalNode.search_services, hm, Option.map_some', Option.some.injEq] at h
      refine ⟨sortedSet r, h.symm, sorted_sortedSet r, nodup_sortedSet r, ?_⟩
      intro a
      rw [mem_sortedSet]
      exact matchingServices_some_mem hav q st.services r hm a
  · intro st' hsame
    cases hm : matchingAgents hav q st.agents with
    | none =>
      rcases (matchingAgents_none_iff hav q st.agents).mp hm with ⟨a, d, hmem, hn⟩
      have hm' : matchingAgents hav q st'.agents = none :=
        (matchingAgents_none_iff hav q st'.agents).mpr ⟨a, d, (hsame a d).mp hmem, hn⟩
      simp [LocalNode.search_agents, hm, hm']
    | some r =>
      cases hm' : matchingAgents hav q st'.agents with
      | none =>
        rcases (matchingAgents_none_iff hav q st'.agents).mp hm' with ⟨a, d, hmem, hn⟩
        have : matchingAgents hav q st.agents = none :=
          (matchingAgents_none_iff hav q st.agents).mpr ⟨a, d, (hsame a d).mpr hmem, hn⟩
        rw [this] at hm
        cases hm
      | some r' =>
        have heq : sortedSet r = sortedSet r' := by
          apply sortedSet_eq_of_mem_iff
          intro a
          rw [matchingAgents_some_mem hav q st.agents r hm a,
            matchingAgents_some_mem hav q st'.agents r' hm' a]
          constructor
          · rintro ⟨d, hmem, ht⟩
            exact ⟨d, (hsame a d).mp hmem, ht⟩
          · rintro ⟨d, hmem, ht⟩
            exact ⟨d, (hsame a d).mpr hmem, ht⟩
        simp [LocalNode.search_agents, hm, hm', heq]
  · intro st' hsame
    cases hm : matchingServices hav q st.services with
    | none =>
      rcases (matchingServices_none_iff hav q st.services).mp hm with ⟨a, d, hmem, hn⟩
      have hm' : matchingServices hav q st'.services = none :=
        (matchingServices_none_iff hav q st'.services).mpr ⟨a, d, (hsame a d).mp hmem, hn⟩
      simp [LocalNode.search_services, hm, hm']
    | some r =>
      cases hm' : matchingServices hav q st'.services with
      | none =>
        rcases (matchingServices_none_iff hav q st'.services).mp hm' with ⟨a, d, hmem, hn⟩
        have : matchingServices hav q st.services = none :=
          (matchingServices_none_iff hav q st.services).mpr ⟨a, d, (hsame a d).mpr hmem, hn⟩
        rw [this] at hm
        cases hm
      | some r' =>
        have heq : sortedSet r = sortedSet r' := by
          apply sortedSet_eq_of_mem_iff
          intro a
          rw [matchingServices_some_mem hav q st.services r hm a,
            matchingServices_some_mem hav q st'.services r' hm' a]
          constructor
          · rintro ⟨ds, hmem, d, hdm, ht⟩
            rcases (hsame a d).mp ⟨ds, hmem, hdm⟩ with ⟨ds', hmem', hdm'⟩
            exact ⟨ds', hmem', d, hdm', ht⟩
          · rintro ⟨ds, hmem, d, hdm, ht⟩
            rcases (hsame a d).mpr ⟨ds, hmem, hdm⟩ with ⟨ds', hmem', hdm'⟩
            exact ⟨ds', hmem', d, hdm', ht⟩
        simp [LocalNode.search_services, hm, hm', heq]

/-- C5, witness: a one-agent directory whose description satisfies the query
yields the search-result message with the request's id and the sorted,
deduplicated singleton. -/
theorem c5_witness :
    ∃ ids, (MailboxItem.searchResult 7 ["k"]) = .searchResult (7 : Int) ids
      ∧ List.Sorted (fun a b : String => a ≤ b) ids ∧ ids.Nodup
      ∧ ∀ a, a ∈ ids ↔ ∃ d,
          (a, d) ∈ [("k", (⟨[("foo", Value.i 15)], ⟨"", [⟨"foo", Ty.int, true, none⟩], none⟩⟩ :
            Description))]
          ∧ Query.check (fun _ _ => 0)
              ⟨[.constraint "foo" (.relation ⟨.GT, Value.i 10⟩)], none⟩ d = some true :=
  (c5_search_semantics (fun _ _ => 0)
      ⟨[("k", ⟨[("foo", Value.i 15)], ⟨"", [⟨"foo", Ty.int, true, none⟩], none⟩⟩)], [], []⟩ 7
      ⟨[.constraint "foo" (.relation ⟨.GT, Value.i 10⟩)], none⟩).1
    (.searchResult 7 ["k"]) rfl

theorem pbToValue_valueToPb (v : Value) : pbToValue (valueToPb v) = v := by
  cases v <;> rfl

theorem relation_from_to (r : Relation) : Relation.from_pb r.to_pb = r := by
  cases r with
  | mk op value => simp [Relation.to_pb, Relation.from_pb, pbToValue_valueToPb]

theorem rangePair_from_to (p : RangePair) : RangePair.from_pb p.to_pb = p := by
  cases p <;> rfl

theorem mapOption_round {α β : Type} {f : α → Option β} {g : β → α}
    (hinv : ∀ x y, f x = some y → g y = x) :
    ∀ {l : List α} {ys : List β}, mapOption f l = some ys → ys.map g = l := by
  intro l
  induction l with
  | nil =>
    intro ys h
    simp only [mapOption, Option.some.injEq] at h
    subst h
    rfl
  | cons x rest ih =>
    intro ys h
    cases hx : f x with
    | none => simp [mapOption, hx] at h
    | some y =>
      simp only [mapOption, hx] at h
      cases hrest : mapOption f rest with
      | none => rw [hrest] at h; simp at h
      | some ys' =>
        rw [hrest] at h
        simp only [Option.map_some', Option.some.injEq] at h
        subst h
        simp [hinv x y hx, ih hrest]

theorem projS_inv (x : Value) (y : String) (h : x.projS = some y) : Value.s y = x := by
  cases x <;> simp [Value.projS] at h <;> rw [h]

theorem projB_inv (x : Value) (y : Bool) (h : x.projB = some y) : Value.b y = x := by
  cases x <;> simp [Value.projB] at h <;> rw [h]

theorem projI_inv (x : Value) (y : Int) (h : x.projI = some y) : Value.i y = x := by
  cases x <;> simp [Value.projI] at h <;> rw [h]

theorem projD_inv (x : Value) (y : Rat) (h : x.projD = some y) : Value.d y = x := by
  cases x <;> simp [Value.projD] at h <;> rw [h]

theorem projL_inv (x : Value) (y : Location) (h : x.projL = some y) : Value.l y = x := by
  cases x <;> simp [Value.projL] at h <;> rw [h]

theorem setToPb_round {op : SetOp} {values : List Value} {pb : Pb.Set}
    (h : setToPb op values = some pb) : setFromPb pb = (op, values) := by
  unfold setToPb at h
  cases hty : ((values.head?).map Value.ty).getD .str <;> rw [hty] at h
  case str =>
    cases hm : mapOption Value.projS values with
    | none => rw [hm] at h; simp at h
    | some vs =>
      rw [hm] at h
      simp only [Option.map_some', Option.some.injEq] at h
      subst h
      simp [setFromPb, mapOption_round projS_inv hm]
  case bool =>
    cases hm : mapOption Value.projB values with
    | none => rw [hm] at h; simp at h
    | some vs =>
      rw [hm] at h
      simp only [Option.map_some', Option.some.injEq] at h
      subst h
      simp [setFromPb, mapOption_round projB_inv hm]
  case int =>
    cases hm : mapOption Value.projI values with
    | none => rw [hm] at h; simp at h
    | some vs =>
      rw [hm] at h
      simp only [Option.map_some', Option.some.injEq] at h
      subst h
      simp [setFromPb, mapOption_round projI_inv hm]
  case float =>
    cases hm : mapOption Value.projD values with
    | none => rw [hm] at h; simp at h
    | some vs =>
      rw [hm] at h
      simp only [Option.map_some', Option.some.injEq] at h
      subst h
      simp [setFromPb, mapOption_round projD_inv hm]
  case location =>
    cases hm : mapOption Value.projL values with
    | none => rw [hm] at h; simp at h
    | some vs =>
      rw [hm] at h
      simp only [Option.map_some', Option.some.injEq] at h
      subst h
      simp [setFromPb, mapOption_round projL_inv hm]

theorem constraintType_from_to {ct : ConstraintType} {pb : Pb.ConstraintCase}
    (h : ct.to_pb = some pb) : ConstraintType.from_pb pb = ct := by
  cases ct with
  | relation r =>
    simp only [ConstraintType.to_pb, Option.some.injEq] at h
    subst h
    simp [ConstraintType.from_pb, relation_from_to]
  | range p =>
    simp only [ConstraintType.to_pb, Option.some.injEq] at h
    subst h
    simp [ConstraintType.from_pb, rangePair_from_to]
  | set op values =>
    simp only [ConstraintType.to_pb] at h
    cases hs : setToPb op values with
    | none => rw [hs] at h; simp at h
    | some spb =>
      rw [hs] at h
      simp only [Option.map_some', Option.some.injEq] at h
      subst h
      simp [ConstraintType.from_pb, setToPb_round hs]
  | distance center dist =>
    simp only [ConstraintType.to_pb, Option.some.injEq] at h
    subst h
    rfl

mutual

theorem wf_check_validity : (e : ConstraintExpr) → e.wellFormed = true →
    e.check_validity = .ok ()
  | .and cs, h => by
    simp only [ConstraintExpr.wellFormed, Bool.and_eq_true, decide_eq_true_eq] at h
    have hlen : ¬ cs.length < 2 := by omega
    simp [ConstraintExpr.check_validity, hlen, wf_checkValidityList cs h.2]
  | .or cs, h => by
    simp only [ConstraintExpr.wellFormed, Bool.and_eq_true, decide_eq_true_eq] at h
    have hlen : ¬ cs.length < 2 := by omega
    simp [ConstraintExpr.check_validity, hlen, wf_checkValidityList cs h.2]
  | .not c, _ => rfl
  | .constraint _ _, _ => rfl

theorem wf_checkValidityList : (es : List ConstraintExpr) →
    ConstraintExpr.listWellFormed es = true →
    ConstraintExpr.checkValidityList es = .ok ()
  | [], _ => rfl
  | e :: rest, h => by
    simp only [ConstraintExpr.listWellFormed, Bool.and_eq_true] at h
    simp [ConstraintExpr.checkValidityList, wf_check_validity e h.1,
      wf_checkValidityList rest h.2, Bind.bind, Except.bind]

end

mutual

theorem expr_from_to : (e : ConstraintExpr) → (pb : Pb.ConstraintExpr) →
    e.wellFormed = true → e.to_pb = some pb → ConstraintExpr.from_pb pb = .ok e
  | .and cs, pb, hwf, hto => by
    simp only [ConstraintExpr.to_pb] at hto
    cases hl : ConstraintExpr.listToPb cs with
    | none => rw [hl] at hto; simp at hto
    | some pbs =>
      rw [hl] at hto
      simp only [Option.map_some', Option.some.injEq] at hto
      subst hto
      simp only [ConstraintExpr.wellFormed, Bool.and_eq_true, decide_eq_true_eq] at hwf
      rw [ConstraintExpr.from_pb, exprList_from_to cs pbs hwf.2 hl]
      have hv : (ConstraintExpr.and cs).check_validity = .ok () :=
        wf_check_validity _ (by simp [ConstraintExpr.wellFormed, hwf.1, hwf.2])
      simp [mkAnd, hv]
  | .or cs, pb, hwf, hto => by
    simp only [ConstraintExpr.to_pb] at hto
    cases hl : ConstraintExpr.listToPb cs with
    | none => rw [hl] at hto; simp at hto
    | some pbs =>
      rw [hl] at hto
      simp only [Option.map_some', Option.some.injEq] at hto
      subst hto
      simp only [ConstraintExpr.wellFormed, Bool.and_eq_true, decide_eq_true_eq] at hwf
      rw [ConstraintExpr.from_pb, exprList_from_to cs pbs hwf.2 hl]
      have hv : (ConstraintExpr.or cs).check_validity = .ok () :=
        wf_check_validity _ (by simp [ConstraintExpr.wellFormed, hwf.1, hwf.2])
      simp [mkOr, hv]
  | .not c, pb, hwf, hto => by
    simp only [ConstraintExpr.to_pb] at hto
    cases hc : c.to_pb with
    | none => rw [hc] at hto; simp at hto
    | some cpb =>
      rw [hc] at hto
      simp only [Option.map_some', Option.some.injEq] at hto
      subst hto
      rw [ConstraintExpr.from_pb, expr_from_to c cpb (by simpa [ConstraintExpr.wellFormed] using hwf) hc]
  | .constraint name ct, pb, _, hto => by
    simp only [ConstraintExpr.to_pb] at hto
    cases hc : ct.to_pb with
    | none => rw [hc] at hto; simp at hto
    | some cc =>
      rw [hc] at hto
      simp only [Option.map_some', Option.some.injEq] at hto
      subst hto
      simp [ConstraintExpr.from_pb, constraintType_from_to hc]

theorem exprList_from_to : (es : List ConstraintExpr) → (pbs : List Pb.ConstraintExpr) →
    ConstraintExpr.listWellFormed es = true → ConstraintExpr.listToPb es = some pbs →
    ConstraintExpr.listFromPb pbs = .ok es
  | [], pbs, _, hto => by
    simp only [ConstraintExpr.listToPb, Option.some.injEq] at hto
    subst hto
    rfl
  | e :: rest, pbs, hwf, hto => by
    simp only [ConstraintExpr.listWellFormed, Bool.and_eq_true] at hwf
    simp only [ConstraintExpr.listToPb] at hto
    cases he : e.to_pb with
    | none => rw [he] at hto; simp at hto
    | some epb =>
      rw [he] at hto
      cases hrest : ConstraintExpr.listToPb rest with
      | none => rw [hrest] at hto; simp at hto
      | some rpbs =>
        rw [hrest] at hto
        simp only [Option.map_some', Option.some.injEq] at hto
        subst hto
        rw [ConstraintExpr.listFromPb, expr_from_to e epb hwf.1 he,
          exprList_from_to rest rpbs hwf.2 hrest]

end

theorem attrTyToPb_toTy {t : Ty} {pt : Pb.AttributeType} (h : attrTyToPb t = some pt) :
    pt.toTy = t := by
  cases t
  case bool => simp [attrTyToPb] at h; rw [← h]; rfl
  case int => simp [attrTyToPb] at h; rw [← h]; rfl
  case float => simp [attrTyToPb] at h; rw [← h]; rfl
  case str => simp [attrTyToPb] at h; rw [← h]; rfl
  case location => simp [attrTyToPb] at h

theorem attributeSchema_from_to {a : AttributeSchema} {pb : Pb.Attribute}
    (h : a.to_pb = some pb) :
    AttributeSchema.from_pb pb
      = ⟨a.name, a.type, a.required,
          if (a.description.getD "") == "" then none else some (a.description.getD "")⟩ := by
  unfold AttributeSchema.to_pb at h
  cases ht : attrTyToPb a.type with
  | none => rw [ht] at h; simp at h
  | some pt =>
    rw [ht] at h
    simp only [Option.map_some', Option.some.injEq] at h
    subst h
    simp only [AttributeSchema.from_pb, attrTyToPb_toTy ht]

theorem attrs_from_to {l : List AttributeSchema} :
    ∀ {pbs : List Pb.Attribute}, mapOption AttributeSchema.to_pb l = some pbs →
    pbs.map AttributeSchema.from_pb
      = l.map fun a => ⟨a.name, a.type, a.required,
          if (a.description.getD "") == "" then none else some (a.description.getD "")⟩ := by
  induction l with
  | nil =>
    intro pbs h
    simp only [mapOption, Option.some.injEq] at h
    subst h
    rfl
  | cons a rest ih =>
    intro pbs h
    simp only [mapOption] at h
    cases ha : a.to_pb with
    | none => rw [ha] at h; simp at h
    | some apb =>
      rw [ha] at h
      cases hrest : mapOption AttributeSchema.to_pb rest with
      | none => rw [hrest] at h; simp at h
      | some rpbs =>
        rw [hrest] at h
        simp only [Option.map_some', Option.some.injEq] at h
        subst h
        simp only [List.map_cons, attributeSchema_from_to ha, ih hrest]

theorem attr_map_zip_pyEq (f : AttributeSchema → Option String) :
    ∀ l : List AttributeSchema,
    (((l.map fun a => (⟨a.name, a.type, a.required, f a⟩ : AttributeSchema)).zip l).all
      fun p => p.1.pyEq p.2) = true := by
  intro l
  induction l with
  | nil => rfl
  | cons a rest ih =>
    simp only [List.map_cons, List.zip_cons_cons, List.all_cons, ih, Bool.and_true]
    simp [AttributeSchema.pyEq]

theorem dataModel_from_to_pyEq {m : DataModel} {pb : Pb.DataModel} (h : m.to_pb = some pb) :
    (DataModel.from_pb pb).pyEq m = true := by
  unfold DataModel.to_pb at h
  cases hm : mapOption AttributeSchema.to_pb m.attribute_schemas with
  | none => rw [hm] at h; simp at h
  | some attrs =>
    rw [hm] at h
    simp only [Option.map_some', Option.some.injEq] at h
    subst h
    unfold DataModel.from_pb DataModel.pyEq
    simp only [attrs_from_to hm]
    simp [attr_map_zip_pyEq]

theorem dictSet_of_not_contains {β : Type} {l : List (String × β)} {k : String} {v : β}
    (h : dictContains l k = false) : dictSet l k v = l ++ [(k, v)] := by
  induction l with
  | nil => rfl
  | cons kv rest ih =>
    have h1 : kv.1 ≠ k := by
      intro he
      simp [dictContains, List.any_cons, he] at h
    have h2 : dictContains rest k = false := by
      simpa [dictContains, List.any_cons, h1] using h
    simp [dictSet, h1, ih h2]

theorem pyDict_foldl : ∀ (l : List (String × Value)) (acc : List (String × Value)),
    (∀ kv ∈ l, dictContains acc kv.1 = false) → (l.map Prod.fst).Nodup →
    l.foldl (fun acc kv => dictSet acc kv.1 kv.2) acc = acc ++ l := by
  intro l
  induction l with
  | nil =>
    intro acc _ _
    simp
  | cons kv rest ih =>
    intro acc hacc hnod
    simp only [List.map_cons, List.nodup_cons] at hnod
    have hset : dictSet acc kv.1 kv.2 = acc ++ [kv] := by
      rw [dictSet_of_not_contains (hacc kv (List.mem_cons_self _ _))]
    have hacc' : ∀ kv' ∈ rest, dictContains (acc ++ [kv]) kv'.1 = false := by
      intro kv' hkv'
      have hne : kv.1 ≠ kv'.1 := by
        intro he
        exact hnod.1 (he ▸ List.mem_map_of_mem Prod.fst hkv')
      have h0 := hacc kv' (List.mem_cons_of_mem _ hkv')
      simp only [dictContains, List.any_append] at h0 ⊢
      rw [h0]
      simp [List.any_cons, hne]
    calc (kv :: rest).foldl (fun acc kv => dictSet acc kv.1 kv.2) acc
        = rest.foldl (fun acc kv => dictSet acc kv.1 kv.2) (acc ++ [kv]) := by
          simp [List.foldl_cons, hset]
      _ = (acc ++ [kv]) ++ rest := ih (acc ++ [kv]) hacc' hnod.2
      _ = acc ++ kv :: rest := by simp

theorem pyDict_nodup {l : List (String × Value)} (h : (l.map Prod.fst).Nodup) :
    pyDict l = l := by
  unfold pyDict
  rw [pyDict_foldl l [] (by intro kv _; rfl) h]
  rfl

theorem dictGet_eq_dictLookup (l : List (String × Value)) (k : String) :
    dictGet l k = dictLookup l k := rfl

theorem dictGet_self {l : List (String × Value)} (h : (l.map Prod.fst).Nodup) :
    ∀ kv ∈ l, dictGet l kv.1 = some kv.2 := by
  induction l with
  | nil => intro kv hkv; cases hkv
  | cons hd rest ih =>
    intro kv hkv
    simp only [List.map_cons, List.nodup_cons] at h
    rcases List.mem_cons.mp hkv with he | hm
    · subst he
      rw [dictGet_eq_dictLookup, dictLookup_cons]
      simp
    · have hne : hd.1 ≠ kv.1 := by
        intro heq
        exact h.1 (heq ▸ List.mem_map_of_mem Prod.fst hm)
      rw [dictGet_eq_dictLookup, dictLookup_cons, if_neg hne,
        ← dictGet_eq_dictLookup]
      exact ih h.2 kv hm

theorem dictPyEq_refl {l : List (String × Value)} (h : (l.map Prod.fst).Nodup) :
    dictPyEq l l = true := by
  unfold dictPyEq
  have hall : l.all (fun kv => (dictGet l kv.1).any fun v => kv.2.pyEq v) = true := by
    rw [List.all_eq_true]
    intro kv hkv
    rw [dictGet_self h kv hkv]
    simpa [Option.any] using value_pyEq_refl kv.2
  simp [hall]

theorem checkValueTypes_map (values : List (String × Value)) (f : AttributeSchema → Option String) :
    ∀ l : List AttributeSchema,
    checkValueTypes values (l.map fun a => ⟨a.name, a.type, a.required, f a⟩)
      = checkValueTypes values l := by
  intro l
  induction l with
  | nil => rfl
  | cons a rest ih =>
    simp only [List.map_cons, checkValueTypes]
    cases hd : dictGet values a.name with
    | none => simp [hd, ih]
    | some v => simp [hd, ih]

theorem check_consistency_map (values : List (String × Value)) (f : AttributeSchema → Option String)
    (l : List AttributeSchema) (n1 n2 : String) (d1 d2 : Option String) :
    check_consistency values ⟨n2, l.map fun a => ⟨a.name, a.type, a.required, f a⟩, d2⟩
      = check_consistency values ⟨n1, l, d1⟩ := by
  unfold check_consistency
  have h1 : ((l.map fun a => (⟨a.name, a.type, a.required, f a⟩ : AttributeSchema)).filter
        fun s => s.required).map (fun s => s.name)
      = (l.filter fun s => s.required).map fun s => s.name := by
    rw [List.filter_map, List.map_map]
    rfl
  have h2 : (l.map fun a => (⟨a.name, a.type, a.required, f a⟩ : AttributeSchema)).map
        (fun s => s.name) = l.map fun s => s.name := by
    rw [List.map_map]
    rfl
  simp only [h1, h2, checkValueTypes_map values f l]

mutual

theorem is_valid_map (f : AttributeSchema → Option String) (l : List AttributeSchema)
    (n1 n2 : String) (d1 d2 : Option String) :
    (e : ConstraintExpr) →
    e.is_valid ⟨n2, l.map fun a => ⟨a.name, a.type, a.required, f a⟩, d2⟩
      = e.is_valid ⟨n1, l, d1⟩
  | .and cs => by
    simp only [ConstraintExpr.is_valid, isValidList_map f l n1 n2 d1 d2 cs]
  | .or cs => by
    simp only [ConstraintExpr.is_valid, isValidList_map f l n1 n2 d1 d2 cs]
  | .not c => by
    simp only [ConstraintExpr.is_valid, is_valid_map f l n1 n2 d1 d2 c]
  | .constraint name ct => by
    simp only [ConstraintExpr.is_valid]
    have hfind : DataModel.attributes_by_name
          ⟨n2, l.map fun a => ⟨a.name, a.type, a.required, f a⟩, d2⟩ name
        = (DataModel.attributes_by_name ⟨n1, l, d1⟩ name).map
            fun a => ⟨a.name, a.type, a.required, f a⟩ := by
      unfold DataModel.attributes_by_name
      rw [List.find?_map]
      rfl
    rw [hfind]
    cases hf : DataModel.attributes_by_name ⟨n1, l, d1⟩ name with
    | none => simp
    | some attr => simp [ConstraintType.is_valid]

theorem isValidList_map (f : AttributeSchema → Option String) (l : List AttributeSchema)
    (n1 n2 : String) (d1 d2 : Option String) :
    (es : List ConstraintExpr) →
    ConstraintExpr.isValidList es ⟨n2, l.map fun a => ⟨a.name, a.type, a.required, f a⟩, d2⟩
      = ConstraintExpr.isValidList es ⟨n1, l, d1⟩
  | [] => rfl
  | e :: rest => by
    simp only [ConstraintExpr.isValidList, is_valid_map f l n1 n2 d1 d2 e,
      isValidList_map f l n1 n2 d1 d2 rest]

end

theorem valueKv_inv {v : Value} {pv : Pb.Value} (h : valueToKeyValuePb v = some pv) :
    extract_value pv = some v := by
  cases v
  case s x => simp [valueToKeyValuePb] at h; rw [← h]; rfl
  case b x => simp [valueToKeyValuePb] at h; rw [← h]; rfl
  case i x => simp [valueToKeyValuePb] at h; rw [← h]; rfl
  case d x => simp [valueToKeyValuePb] at h; rw [← h]; rfl
  case l x => simp [valueToKeyValuePb] at h

theorem kvs_round :
    ∀ {values : List (String × Value)} {vpbs : List Pb.KeyValue},
    mapOption (fun kv => (valueToKeyValuePb kv.2).map fun v => (⟨kv.1, v⟩ : Pb.KeyValue)) values
      = some vpbs →
    (vpbs.find? (fun kv => (extract_value kv.value).isNone) = none
      ∧ vpbs.filterMap (fun kv => (extract_value kv.value).map fun v => (kv.key, v)) = values) := by
  intro values
  induction values with
  | nil =>
    intro vpbs h
    simp only [mapOption, Option.some.injEq] at h
    subst h
    exact ⟨rfl, rfl⟩
  | cons kv rest ih =>
    intro vpbs h
    simp only [mapOption] at h
    cases hv : valueToKeyValuePb kv.2 with
    | none => rw [hv] at h; simp at h
    | some pv =>
      rw [hv] at h
      simp only [Option.map_some'] at h
      cases hrest : mapOption
          (fun kv => (valueToKeyValuePb kv.2).map fun v => (⟨kv.1, v⟩ : Pb.KeyValue)) rest with
      | none => rw [hrest] at h; simp at h
      | some rpbs =>
        rw [hrest] at h
        simp only [Option.map_some', Option.some.injEq] at h
        subst h
        have hx : extract_value pv = some kv.2 := valueKv_inv hv
        obtain ⟨ih1, ih2⟩ := ih hrest
        constructor
        · rw [List.find?_cons_of_neg, ih1]
          simp [hx]
        · simp [List.filterMap_cons, hx, ih2]

theorem valueListPyEq_refl : ∀ l : List Value, ((l.zip l).all fun p => p.1.pyEq p.2) = true := by
  intro l
  induction l with
  | nil => rfl
  | cons v rest ih =>
    simp [List.zip_cons_cons, List.all_cons, value_pyEq_refl, ih]

theorem constraintType_pyEq_refl (ct : ConstraintType) : ct.pyEq ct = true := by
  cases ct with
  | relation r => simp [ConstraintType.pyEq, value_pyEq_refl]
  | range p => simp [ConstraintType.pyEq, value_pyEq_refl]
  | set op values => simp [ConstraintType.pyEq, valueListPyEq_refl]
  | distance center dist => simp [ConstraintType.pyEq]

mutual

theorem exprPyEq_refl : (e : ConstraintExpr) → e.pyEq e = true
  | .and cs => by simp only [ConstraintExpr.pyEq, listPyEq_refl cs]
  | .or cs => by simp only [ConstraintExpr.pyEq, listPyEq_refl cs]
  | .not c => by simp only [ConstraintExpr.pyEq, exprPyEq_refl c]
  | .constraint name ct => by
    simp [ConstraintExpr.pyEq, constraintType_pyEq_refl]

theorem listPyEq_refl : (es : List ConstraintExpr) → ConstraintExpr.listPyEq es es = true
  | [] => rfl
  | e :: rest => by
    simp only [ConstraintExpr.listPyEq, exprPyEq_refl e, listPyEq_refl rest, Bool.and_self]

end

/-- C3: serialization round-trip — decoding the wire encoding of a
`ConstraintType`, of a well-formed `ConstraintExpr` (every `And`/`Or` with at
least two children, as the constructors guarantee), of a `DataModel`, of a
consistent `Description` (unique keys, passing its own consistency check)
and of a valid `Query` reproduces a value Python-`==`-equal to the original
(for constraint types and expressions the decoded value is structurally
identical). -/
theorem c3_roundtrip :
    (∀ (ct : ConstraintType) (pb : Pb.ConstraintCase), ct.to_pb = some pb →
      ConstraintType.from_pb pb = ct)
    ∧ (∀ (e : ConstraintExpr) (pb : Pb.ConstraintExpr), e.wellFormed = true →
      e.to_pb = some pb → ConstraintExpr.from_pb pb = .ok e)
    ∧ (∀ (m : DataModel) (pb : Pb.DataModel), m.to_pb = some pb →
      (DataModel.from_pb pb).pyEq m = true)
    ∧ (∀ (d : Description) (pb : Pb.Instance), (d.values.map Prod.fst).Nodup →
      check_consistency d.values d.data_model = .ok () → d.to_pb = some pb →
      ∃ d', Description.from_pb pb = .ok d' ∧ d'.pyEq d = true)
    ∧ (∀ (q : Query) (pb : Pb.QueryModel), q.constraints ≠ [] →
      ConstraintExpr.listWellFormed q.constraints = true → q.is_valid q.model = true →
      q.to_pb = some pb → ∃ q', Query.from_pb pb = .ok q' ∧ q'.pyEq q = true) := by
  refine ⟨?_, ?_, ?_, ?_, ?_⟩
  · intro ct pb h
    exact constraintType_from_to h
  · intro e pb hwf hto
    exact expr_from_to e pb hwf hto
  · intro m pb h
    exact dataModel_from_to_pyEq h
  · intro d pb hnod hcons hto
    unfold Description.to_pb at hto
    cases hm : d.data_model.to_pb with
    | none => rw [hm] at hto; simp at hto
    | some mpb =>
      rw [hm] at hto
      cases hvs : mapOption
          (fun kv => (valueToKeyValuePb kv.2).map fun v => (⟨kv.1, v⟩ : Pb.KeyValue)) d.values with
      | none => rw [hvs] at hto; simp at hto
      | some vpbs =>
        rw [hvs] at hto
        simp only [Option.some.injEq] at hto
        subst hto
        obtain ⟨hfind, hfilter⟩ := kvs_round hvs
        have hmodel : DataModel.from_pb mpb
            = ⟨mpb.name, d.data_model.attribute_schemas.map fun a =>
                ⟨a.name, a.type, a.required,
                  if (a.description.getD "") == "" then none
                  else some (a.description.getD "")⟩, some mpb.description⟩ := by
          unfold DataModel.to_pb at hm
          cases hma : mapOption AttributeSchema.to_pb d.data_model.attribute_schemas with
          | none => rw [hma] at hm; simp at hm
          | some attrs =>
            rw [hma] at hm
            simp only [Option.map_some', Option.some.injEq] at hm
            subst hm
            simp [DataModel.from_pb, attrs_from_to hma]
        have hcons' : check_consistency d.values (DataModel.from_pb mpb) = .ok () := by
          rw [hmodel]
          rw [check_consistency_map d.values _ d.data_model.attribute_schemas
            d.data_model.name mpb.name d.data_model.description (some mpb.description)]
          have : (⟨d.data_model.name, d.data_model.attribute_schemas,
              d.data_model.description⟩ : DataModel) = d.data_model := rfl
          rw [this]
          exact hcons
        refine ⟨⟨d.values, DataModel.from_pb mpb⟩, ?_, ?_⟩
        · unfold Description.from_pb
          simp only [hfind, hfilter, pyDict_nodup hnod]
          simp [Description.make, hcons']
        · simp only [Description.pyEq, dictPyEq_refl hnod, Bool.true_and]
          exact dataModel_from_to_pyEq hm
  · intro q pb hne hwf hval hto
    unfold Query.to_pb at hto
    cases hl : ConstraintExpr.listToPb q.constraints with
    | none => rw [hl] at hto; simp at hto
    | some cs =>
      simp only [hl] at hto
      cases hqm : q.model with
      | none =>
        simp only [hqm, Option.some.injEq] at hto
        subst hto
        have hmk : mkQuery q.constraints none = .ok ⟨q.constraints, none⟩ := by
          have hlen : ¬ q.constraints.length < 1 := by
            have := List.length_pos.mpr hne
            omega
          simp [mkQuery, hlen, Query.is_valid]
        refine ⟨⟨q.constraints, none⟩, ?_, ?_⟩
        · simp [Query.from_pb, exprList_from_to q.constraints cs hwf hl, hmk]
        · simp [Query.pyEq, listPyEq_refl, optionModelPyEq, hqm]
      | some m =>
        simp only [hqm] at hto
        cases hmp : m.to_pb with
        | none => simp [hmp] at hto
        | some mpb =>
          simp only [hmp, Option.some.injEq] at hto
          subst hto
          have hval' : ConstraintExpr.isValidList q.constraints (DataModel.from_pb mpb) = true := by
            have hmodel : DataModel.from_pb mpb
                = ⟨mpb.name, m.attribute_schemas.map fun a =>
                    ⟨a.name, a.type, a.required,
                      if (a.description.getD "") == "" then none
                      else some (a.description.getD "")⟩, some mpb.description⟩ := by
              unfold DataModel.to_pb at hmp
              cases hma : mapOption AttributeSchema.to_pb m.attribute_schemas with
              | none => rw [hma] at hmp; simp at hmp
              | some attrs =>
                rw [hma] at hmp
                simp only [Option.map_some', Option.some.injEq] at hmp
                subst hmp
                simp [DataModel.from_pb, attrs_from_to hma]
            rw [hmodel]
            rw [isValidList_map _ m.attribute_schemas m.name mpb.name m.description
              (some mpb.description) q.constraints]
            have hm' : (⟨m.name, m.attribute_schemas, m.description⟩ : DataModel) = m := rfl
            rw [hm']
            simpa [Query.is_valid, hqm] using hval
          have hmk : mkQuery q.constraints (some (DataModel.from_pb mpb))
              = .ok ⟨q.constraints, some (DataModel.from_pb mpb)⟩ := by
            have hlen : ¬ q.constraints.length < 1 := by
              have := List.length_pos.mpr hne
              omega
            simp [mkQuery, hlen, Query.is_valid, hval']
          refine ⟨⟨q.constraints, some (DataModel.from_pb mpb)⟩, ?_, ?_⟩
          · simp [Query.from_pb, exprList_from_to q.constraints cs hwf hl, hmk]
          · simp only [Query.pyEq, listPyEq_refl, optionModelPyEq, hqm, Bool.true_and]
            exact dataModel_from_to_pyEq hmp

/-- C3, witness: a query of two constraints (a string equality and an
integer set membership) over a two-attribute data model, and a consistent
description instance, each encode and decode back to a Python-equal value. -/
theorem c3_witness :
    (∃ q', Query.from_pb
        ((Query.to_pb ⟨[.constraint "author" (.relation ⟨.EQ, Value.s "SK"⟩),
            .constraint "year" (.set .IN [Value.i 1990, Value.i 1991])],
          some ⟨"book", [⟨"author", Ty.str, true, some "a"⟩, ⟨"year", Ty.int, false, none⟩],
            some "m"⟩⟩).get rfl)
      = .ok q'
      ∧ q'.pyEq ⟨[.constraint "author" (.relation ⟨.EQ, Value.s "SK"⟩),
            .constraint "year" (.set .IN [Value.i 1990, Value.i 1991])],
          some ⟨"book", [⟨"author", Ty.str, true, some "a"⟩, ⟨"year", Ty.int, false, none⟩],
            some "m"⟩⟩ = true)
    ∧ (∃ d', Description.from_pb
        ((Description.to_pb ⟨[("author", Value.s "SK"), ("year", Value.i 1990)],
            ⟨"book", [⟨"author", Ty.str, true, some "a"⟩, ⟨"year", Ty.int, false, none⟩],
              some "m"⟩⟩).get rfl)
      = .ok d'
      ∧ d'.pyEq ⟨[("author", Value.s "SK"), ("year", Value.i 1990)],
          ⟨"book", [⟨"author", Ty.str, true, some "a"⟩, ⟨"year", Ty.int, false, none⟩],
            some "m"⟩⟩ = true) :=
  ⟨c3_roundtrip.2.2.2.2 _ _ (by simp) rfl rfl rfl,
   c3_roundtrip.2.2.2.1 _ _ (by simp) rfl rfl⟩

end OEF
